import Mathlib

/-!
Verification of the lddc-fetch-core lyric retrieval and rendering pipeline.

Shallow embedding of the Python sources under `src/LDDC_Fetch_Core/src/lddc_fetch_core/`:
Python `int` is modelled by `Int`/`Nat`, `float` by `ℚ`, `str` by `String`
(character lists where scanning is needed), `None`-able values by `Option`,
raising code by `Except`, and `dict` by association lists.  Time (`time.time()`)
is passed as an explicit parameter.  Python string operations are modelled over
ASCII (the sources and claims only exercise ASCII metacharacters).
-/

set_option linter.unusedVariables false

namespace LddcFetchCore

/-! ## Data model (models.py) -/

/-- `Source` — closed enumeration of lyric providers (models.py). -/
inductive Source
  | LRCLIB
  | QM
  | KG
  | NE
deriving DecidableEq, Repr

/-- `LyricsWord` — immutable `{start, end, text}` (models.py).  The Python field
`end` is a Lean keyword, hence the guillemets. -/
structure LyricsWord where
  start : Option Int
  «end» : Option Int
  text : String
deriving DecidableEq, Repr

/-- `LyricsLine` — immutable `{start, end, words}` (models.py). -/
structure LyricsLine where
  start : Option Int
  «end» : Option Int
  words : List LyricsWord
deriving DecidableEq, Repr

/-- `LyricsLine.text`: concatenation of the word texts (models.py). -/
def LyricsLine.text (ln : LyricsLine) : String :=
  String.join (ln.words.map (fun w => w.text))

/-- `Song` (models.py).  `artist` is modelled by its joined string form (the
`Artist` tuple class only matters through `str(song.artist)` in the claims);
the provider-private `extra` bag is irrelevant to every claim and omitted. -/
structure Song where
  source : Source
  id : Option String := none
  title : Option String := none
  artist : Option String := none
  album : Option String := none
  duration_ms : Option Int := none
deriving DecidableEq, Repr

/-- `LyricsBundle` (models.py).  `tags` is an association list standing for the
Python dict. -/
structure LyricsBundle where
  song : Song
  tags : List (String × String) := []
  orig : Option (List LyricsLine) := none
  ts : Option (List LyricsLine) := none
  roma : Option (List LyricsLine) := none
deriving DecidableEq, Repr

/-! ## Decimal strings

Python formats integers with `f"{n:02d}"` / `f"{n:03d}"` and parses them with
`int(...)`.  We model decimal rendering and parsing explicitly. -/

/-- The ASCII digit character for `d < 10`. -/
def digitChar (d : Nat) : Char := Char.ofNat (48 + d)

/-- ASCII digit test (Python's `\d` restricted to ASCII). -/
def isDigitChar (c : Char) : Bool := 48 ≤ c.toNat && c.toNat ≤ 57

/-- Numeric value of an ASCII digit character. -/
def digitVal (c : Char) : Nat := c.toNat - 48

/-- Value of a digit string (what `int(...)` returns on a digit string,
leading zeros allowed). -/
def valNat (l : List Char) : Nat := l.foldl (fun a c => a * 10 + digitVal c) 0

/-- Decimal digits of `n`, most significant first (no leading zeros;
`natDigits 0 = ['0']`). -/
def natDigits (n : Nat) : List Char :=
  if _h : n < 10 then [digitChar n]
  else natDigits (n / 10) ++ [digitChar (n % 10)]
termination_by n
decreasing_by simp_wf; omega

/-- Zero-pad on the left to width `w` (the `0w d` format spec; longer strings
are kept whole). -/
def padZeros (w : Nat) (l : List Char) : List Char :=
  List.replicate (w - l.length) '0' ++ l

/-- `f"{n:0wd}"` for `n : Nat`. -/
def pyFmt (w : Nat) (n : Nat) : String := String.mk (padZeros w (natDigits n))

/-- All-ASCII-digit test for a character list. -/
def allDigits (l : List Char) : Bool := l.all isDigitChar

/-- Python `int(s)` restricted to plain digit strings (the only shape the time
codec ever feeds it); anything else raises, modelled by `none`. -/
def pyInt (s : String) : Option Nat :=
  if !s.data.isEmpty && allDigits s.data then some (valNat s.data) else none

/-! ## Time codec (timeutil.py) -/

/-- The `(minutes, seconds, milliseconds)` fields of `ms2formattime`
(timeutil.py lines 7-12): clamp at 0, then `m = ms // 60000`,
`s = (ms % 60000) // 1000`, `ms_part = ms % 1000`, formatted
`02d`/`02d`/`03d`. -/
def fmtFields (ms : Int) : String × String × String :=
  let n := (max ms 0).toNat
  (pyFmt 2 (n / 60000), pyFmt 2 (n % 60000 / 1000), pyFmt 3 (n % 1000))

/-- `ms2formattime` (timeutil.py): `f"{m:02d}:{s:02d}.{ms_part:03d}"`. -/
def ms2formattime (ms : Int) : String :=
  let f := fmtFields ms
  f.1 ++ ":" ++ f.2.1 ++ "." ++ f.2.2

/-- The `(minutes, seconds, centiseconds)` fields of `ms2roundedtime`
(timeutil.py lines 15-21): `cs = (ms % 1000) // 10`, formatted
`02d`/`02d`/`02d`. -/
def roundedFields (ms : Int) : String × String × String :=
  let n := (max ms 0).toNat
  (pyFmt 2 (n / 60000), pyFmt 2 (n % 60000 / 1000), pyFmt 2 (n % 1000 / 10))

/-- `ms2roundedtime` (timeutil.py): `f"{m:02d}:{s:02d}.{cs:02d}"`. -/
def ms2roundedtime (ms : Int) : String :=
  let f := roundedFields ms
  f.1 ++ ":" ++ f.2.1 ++ "." ++ f.2.2

/-- `time2ms` (timeutil.py lines 24-31): parse the three fields with `int`,
multiply a 2-character millisecond field by 10 (centiseconds).  `int(...)`
raising on a malformed field is modelled by `none`. -/
def time2ms (m s ms : String) : Option Int := do
  let mm ← pyInt m
  let ss ← pyInt s
  let mss0 ← pyInt ms
  let mss := if ms.length == 2 then mss0 * 10 else mss0
  pure (((mm * 60 + ss) * 1000 + mss : Nat) : Int)

/-! ## Decimal codec lemmas -/

theorem valNat_append (l₁ l₂ : List Char) :
    valNat (l₁ ++ l₂) = l₂.foldl (fun a c => a * 10 + digitVal c) (valNat l₁) := by
  simp [valNat, List.foldl_append]

theorem foldl_replicate_zeros (k : Nat) :
    (List.replicate k '0').foldl (fun a c => a * 10 + digitVal c) 0 = 0 := by
  induction k with
  | zero => rfl
  | succ n ih =>
    rw [List.replicate_succ, List.foldl_cons,
      show (0 : Nat) * 10 + digitVal '0' = 0 from by decide]
    exact ih

theorem valNat_padZeros (w : Nat) (l : List Char) : valNat (padZeros w l) = valNat l := by
  simp [padZeros, valNat, List.foldl_append, foldl_replicate_zeros]

theorem digitVal_digitChar {d : Nat} (h : d < 10) : digitVal (digitChar d) = d := by
  interval_cases d <;> decide

theorem isDigitChar_digitChar {d : Nat} (h : d < 10) : isDigitChar (digitChar d) = true := by
  interval_cases d <;> decide

theorem natDigits_ne_nil (n : Nat) : natDigits n ≠ [] := by
  unfold natDigits
  split <;> simp

theorem valNat_natDigits (n : Nat) : valNat (natDigits n) = n := by
  induction n using natDigits.induct with
  | case1 n h =>
    unfold natDigits
    simp [h, valNat, digitVal_digitChar h]
  | case2 n h ih =>
    unfold natDigits
    rw [dif_neg h, valNat_append]
    simp only [List.foldl_cons, List.foldl_nil]
    rw [ih, digitVal_digitChar (show n % 10 < 10 by omega)]
    omega

theorem allDigits_natDigits (n : Nat) : allDigits (natDigits n) = true := by
  induction n using natDigits.induct with
  | case1 n h =>
    unfold natDigits
    simp [h, allDigits, isDigitChar_digitChar h]
  | case2 n h ih =>
    unfold natDigits
    rw [dif_neg h]
    simp only [allDigits, List.all_append, List.all_cons, List.all_nil, Bool.and_true]
    exact by
      rw [show (natDigits (n / 10)).all isDigitChar = true from ih,
        isDigitChar_digitChar (show n % 10 < 10 by omega)]
      rfl

theorem allDigits_padZeros (w : Nat) (l : List Char)
    (h : allDigits l = true) : allDigits (padZeros w l) = true := by
  simp only [allDigits, padZeros, List.all_append, Bool.and_eq_true] at *
  refine ⟨?_, h⟩
  simp only [List.all_eq_true]
  intro c hc
  rw [List.eq_of_mem_replicate hc]
  decide

theorem natDigits_len1 {n : Nat} (h : n < 10) : (natDigits n).length = 1 := by
  unfold natDigits
  simp [h]

theorem natDigits_len_le2 {n : Nat} (h : n < 100) : (natDigits n).length ≤ 2 := by
  unfold natDigits
  split
  · simp
  · rename_i h10
    rw [List.length_append, natDigits_len1 (show n / 10 < 10 by omega)]
    simp

theorem natDigits_len_le3 {n : Nat} (h : n < 1000) : (natDigits n).length ≤ 3 := by
  unfold natDigits
  split
  · simp
  · rename_i h10
    rw [List.length_append]
    have := natDigits_len_le2 (show n / 10 < 100 by omega)
    simp
    omega

theorem pyInt_pyFmt (w n : Nat) : pyInt (pyFmt w n) = some n := by
  have hne : (padZeros w (natDigits n)) ≠ [] := by
    simp only [padZeros, ne_eq, List.append_eq_nil]
    intro ⟨_, hn⟩
    exact natDigits_ne_nil n hn
  have hd := allDigits_padZeros w (natDigits n) (allDigits_natDigits n)
  simp only [pyInt, pyFmt]
  simp [hne, hd, List.isEmpty_iff, valNat_padZeros, valNat_natDigits]

theorem pyFmt_length (w n : Nat) :
    (pyFmt w n).length = max w (natDigits n).length := by
  simp [pyFmt, padZeros, String.length]
  omega

/-- C4: for every integer `ms ≥ 0`, `time2ms` applied to the fields of
`ms2formattime ms` (3-digit resolution) returns exactly `ms`, and applied to
the fields of `ms2roundedtime ms` (2-digit centisecond resolution) returns
`(ms / 10) * 10`, i.e. `ms` rounded down to the nearest 10 ms. -/
theorem timecodec_roundtrip (ms : Int) (h : 0 ≤ ms) :
    time2ms (fmtFields ms).1 (fmtFields ms).2.1 (fmtFields ms).2.2 = some ms ∧
    time2ms (roundedFields ms).1 (roundedFields ms).2.1 (roundedFields ms).2.2
      = some (ms / 10 * 10) := by
  have hmax : max ms 0 = ms := by omega
  set n := ms.toNat with hn
  have hcast : (n : Int) = ms := Int.toNat_of_nonneg h
  constructor
  · have hlen : (pyFmt 3 (n % 1000)).length = 3 := by
      rw [pyFmt_length]
      have := natDigits_len_le3 (show n % 1000 < 1000 by omega)
      omega
    simp only [time2ms, fmtFields, hmax, hn, pyInt_pyFmt, Option.bind_eq_bind,
      Option.some_bind, hlen]
    norm_num
    rw [hmax]
    omega
  · have hlen : (pyFmt 2 (n % 1000 / 10)).length = 2 := by
      rw [pyFmt_length]
      have := natDigits_len_le2 (show n % 1000 / 10 < 100 by omega)
      omega
    simp only [time2ms, roundedFields, hmax, hn, pyInt_pyFmt, Option.bind_eq_bind,
      Option.some_bind, hlen]
    norm_num
    rw [hmax]
    omega

/-- Witness for `timecodec_roundtrip` at `ms = 61234`. -/
theorem timecodec_roundtrip_witness :
    (0 : Int) ≤ 61234 ∧
      time2ms (fmtFields 61234).1 (fmtFields 61234).2.1 (fmtFields 61234).2.2
        = some 61234 :=
  ⟨by norm_num, (timecodec_roundtrip 61234 (by norm_num)).1⟩

/-! ## TTL cache (cache.py)

`time.time()` is modelled by an explicit `now : ℚ` argument (Python floats as
rationals); dict state is an association list. -/

/-- `_Entry` (cache.py lines 11-14). -/
structure CacheEntry (α : Type) where
  value : α
  expire_at : Option ℚ

/-- Dict lookup (first matching key); Python dicts are modelled by
association lists whose keys stay unique. -/
def dictGet {κ α : Type} [DecidableEq κ] (k : κ) : List (κ × α) → Option α
  | [] => none
  | (k', v) :: rest => if k' = k then some v else dictGet k rest

/-- Dict store with overwrite (`d[k] = v`). -/
def dictSet {κ α : Type} [DecidableEq κ] (k : κ) (v : α) :
    List (κ × α) → List (κ × α)
  | [] => [(k, v)]
  | (k', v') :: rest => if k' = k then (k, v) :: rest else (k', v') :: dictSet k v rest

/-- Dict removal (`d.pop(k, None)`). -/
def dictPop {κ α : Type} [DecidableEq κ] (k : κ) : List (κ × α) → List (κ × α)
  | [] => []
  | (k', v') :: rest => if k' = k then rest else (k', v') :: dictPop k rest

/-- `d.setdefault(k, v)`: insert only when the key is absent. -/
def dictSetdefault {κ α : Type} [DecidableEq κ] (k : κ) (v : α)
    (d : List (κ × α)) : List (κ × α) :=
  match dictGet k d with
  | some _ => d
  | none => dictSet k v d

/-- `TTLCache` (cache.py): the `_data` mapping, keys modelled as strings. -/
structure TTLCache (α : Type) where
  data : List (String × CacheEntry α)

/-- `TTLCache.set` (cache.py lines 30-32):
`expire_at = (time.time() + expire_seconds) if expire_seconds else None`.
Python truthiness makes both `None` and `0` fall to the `None` branch. -/
def TTLCache.set {α : Type} (c : TTLCache α) (key : String) (value : α)
    (expire_seconds : Option Int) (now : ℚ) : TTLCache α :=
  let expire_at : Option ℚ :=
    match expire_seconds with
    | some e => if e ≠ 0 then some (now + (e : ℚ)) else none
    | none => none
  ⟨dictSet key ⟨value, expire_at⟩ c.data⟩

/-- `TTLCache.get` (cache.py lines 21-28) with the default `default=None`:
an entry whose `expire_at` is non-null and `≤ now` is popped and the default
returned.  Returns the value together with the updated `_data` state. -/
def TTLCache.get {α : Type} (c : TTLCache α) (key : String) (now : ℚ) :
    Option α × TTLCache α :=
  match dictGet key c.data with
  | none => (none, c)
  | some ent =>
    match ent.expire_at with
    | some ea => if ea ≤ now then (none, ⟨dictPop key c.data⟩) else (some ent.value, c)
    | none => (some ent.value, c)

theorem dictGet_dictSet_self {κ α : Type} [DecidableEq κ] (k : κ) (v : α)
    (d : List (κ × α)) : dictGet k (dictSet k v d) = some v := by
  induction d with
  | nil => simp [dictGet, dictSet]
  | cons hd tl ih =>
    obtain ⟨k', v'⟩ := hd
    by_cases h : k' = k
    · simp [dictGet, dictSet, h]
    · simp [dictGet, dictSet, h, ih]

/-- C10: `TTLCache.set` with `expire_seconds = 0` stores an entry with no
expiry (`0` is treated the same as `None`), so `get` at any later time returns
the stored value rather than treating the entry as expired. -/
theorem ttlcache_zero_expiry_never_expires {α : Type} (c : TTLCache α)
    (key : String) (value : α) (t_set t_get : ℚ) :
    ((c.set key value (some 0) t_set).get key t_get).1 = some value ∧
      c.set key value (some 0) t_set = c.set key value none t_set := by
  constructor
  · simp [TTLCache.set, TTLCache.get, dictGet_dictSet_self]
  · rfl

/-! ## Candidate scoring (match.py) -/

/-- Python truthiness of an optional string (`if artist and cand_artist`). -/
def optStrTruthy : Option String → Bool
  | some s => !(s == "")
  | none => false

/-- `score_candidate` (match.py lines 71-86).  The text-similarity
`text_difference` (difflib `SequenceMatcher.ratio`, a float in `[0,1]`) and
the regex-based normalizers `normalize_title` / `normalize_artist` are kept
as parameters `td`, `nt`, `na`: the claim concerns only the arithmetic
combination, which does not inspect them.  Floats are modelled by `ℚ`. -/
def score_candidate (td : String → String → ℚ) (nt na : String → String)
    (title : String) (artist : Option String)
    (cand_title : Option String) (cand_artist : Option String) : ℚ :=
  let t1 := nt title
  let t2 := nt (cand_title.getD "")
  let title_score := td t1 t2 * 100
  let score :=
    if optStrTruthy artist && optStrTruthy cand_artist then
      let a1 := na (artist.getD "")
      let a2 := na (cand_artist.getD "")
      let artist_score := td a1 a2 * 100
      title_score * 0.55 + artist_score * 0.45
    else title_score
  let score := if title_score < 30 then max 0 (score - 35) else score
  max 0 score

/-- C7: `score_candidate` returns `0.55·title_score + 0.45·artist_score` when
both artists are non-empty and `title_score` alone otherwise; when
`title_score < 30`, 35 is subtracted from that value and the result clamped
at 0; the returned score is always `≥ 0`.  The hypothesis `hr` records that
`SequenceMatcher.ratio` is non-negative. -/
theorem score_candidate_formula (td : String → String → ℚ) (nt na : String → String)
    (hr : ∀ x y, 0 ≤ td x y)
    (title : String) (artist cand_title cand_artist : Option String) :
    score_candidate td nt na title artist cand_title cand_artist =
      (let title_score := td (nt title) (nt (cand_title.getD "")) * 100
       let artist_score := td (na (artist.getD "")) (na (cand_artist.getD "")) * 100
       let raw :=
         if optStrTruthy artist && optStrTruthy cand_artist then
           0.55 * title_score + 0.45 * artist_score
         else title_score
       if title_score < 30 then max 0 (raw - 35) else raw) ∧
      0 ≤ score_candidate td nt na title artist cand_title cand_artist := by
  have ht : 0 ≤ td (nt title) (nt (cand_title.getD "")) * 100 := by
    have := hr (nt title) (nt (cand_title.getD ""))
    positivity
  have ha : 0 ≤ td (na (artist.getD "")) (na (cand_artist.getD "")) * 100 := by
    have := hr (na (artist.getD "")) (na (cand_artist.getD ""))
    positivity
  constructor
  · simp only [score_candidate]
    cases hb : (optStrTruthy artist && optStrTruthy cand_artist) <;>
        simp only [Bool.false_eq_true, if_false, if_true] <;> split_ifs with hlt
    · exact max_eq_right (le_max_left _ _)
    · exact max_eq_right ht
    · rw [max_eq_right (le_max_left _ _)]
      ring_nf
    · rw [max_eq_right (by linarith)]
      ring
  · simp only [score_candidate]
    exact le_max_left 0 _

/-- Witness for `score_candidate_formula` at a concrete similarity function
and concrete inputs. -/
theorem score_candidate_formula_witness :
    (∀ x y : String, 0 ≤ (fun _ _ => (1 : ℚ) / 2) x y) ∧
      0 ≤ score_candidate (fun _ _ => (1 : ℚ) / 2) id id "a" (some "b")
        (some "c") (some "d") :=
  ⟨fun _ _ => by norm_num,
   (score_candidate_formula (fun _ _ => (1 : ℚ) / 2) id id
     (fun _ _ => by norm_num) "a" (some "b") (some "c") (some "d")).2⟩

/-! ## Bundle cleaning (fetch.py lines 161-179) -/

/-- ASCII whitespace stripped by Python `str.strip()` (the sources only deal
in ASCII whitespace). -/
def isPySpace (c : Char) : Bool :=
  c == ' ' || c == '\t' || c == '\n' || c == '\r' || c == '\x0b' || c == '\x0c'

/-- `str.strip()` over ASCII whitespace. -/
def pyStripChars (l : List Char) : List Char :=
  ((l.dropWhile isPySpace).reverse.dropWhile isPySpace).reverse

/-- `str.strip()` on strings. -/
def pyStrip (s : String) : String := String.mk (pyStripChars s.data)

/-- `_clean_lyrics_data` (fetch.py lines 161-169): drop lines whose joined
text strips to the placeholder `"//"`. -/
def clean_lyrics_data (data : List LyricsLine) : List LyricsLine :=
  data.foldl (fun out line => if pyStrip line.text == "//" then out else out ++ [line]) []

/-- One track of `_clean_lyrics_bundle` (fetch.py lines 172-179): `if track:`
is Python truthiness, so both `None` and the empty list are left untouched. -/
def clean_track : Option (List LyricsLine) → Option (List LyricsLine)
  | some l => if l.isEmpty then some l else some (clean_lyrics_data l)
  | none => none

/-- `_clean_lyrics_bundle` (fetch.py lines 172-179). -/
def clean_lyrics_bundle (b : LyricsBundle) : LyricsBundle :=
  { b with orig := clean_track b.orig, ts := clean_track b.ts,
           roma := clean_track b.roma }

theorem clean_lyrics_data_eq_filter (data : List LyricsLine) :
    clean_lyrics_data data =
      data.filter (fun ln => !(pyStrip ln.text == "//")) := by
  suffices h : ∀ acc : List LyricsLine,
      data.foldl (fun out line => if pyStrip line.text == "//" then out else out ++ [line]) acc
        = acc ++ data.filter (fun ln => !(pyStrip ln.text == "//")) by
    simpa [clean_lyrics_data] using h []
  induction data with
  | nil => intro acc; simp
  | cons hd tl ih =>
    intro acc
    cases h : (pyStrip hd.text == "//") <;>
      simp only [List.foldl_cons, h, Bool.false_eq_true, if_false, if_true,
        List.filter_cons, Bool.not_false, Bool.not_true]
    · rw [ih (acc ++ [hd])]
      simp
    · rw [ih acc]

/-- C6 counterexample: a line whose joined text is `" // "` (not equal to the
placeholder `"//"`) is nevertheless removed by the cleaning step, because the
code compares the *stripped* text against `"//"`; so "every other line is
retained" fails as stated. -/
theorem clean_removes_non_placeholder_line :
    (clean_lyrics_bundle
        ⟨⟨Source.QM, none, none, none, none, none⟩, [],
          some [⟨none, none, [⟨none, none, " // "⟩]⟩], none, none⟩).orig = some [] ∧
      (LyricsLine.mk none none [⟨none, none, " // "⟩]).text ≠ "//" := by
  constructor
  · rfl
  · decide

/-- C6 amended: after the cleaning step each present track equals the original
track with exactly the lines whose joined text *strips* to `"//"` removed —
so no stripped-`"//"` placeholder line remains and every other line is
retained in its original relative order. -/
theorem clean_bundle_filters_placeholder (b : LyricsBundle) :
    (∀ l, (clean_lyrics_bundle b).orig = some l →
        l = (b.orig.getD []).filter (fun ln => !(pyStrip ln.text == "//"))) ∧
    (∀ l, (clean_lyrics_bundle b).ts = some l →
        l = (b.ts.getD []).filter (fun ln => !(pyStrip ln.text == "//"))) ∧
    (∀ l, (clean_lyrics_bundle b).roma = some l →
        l = (b.roma.getD []).filter (fun ln => !(pyStrip ln.text == "//"))) := by
  have track : ∀ (o : Option (List LyricsLine)) l, clean_track o = some l →
      l = (o.getD []).filter (fun ln => !(pyStrip ln.text == "//")) := by
    intro o l hl
    cases o with
    | none => exact absurd hl (by simp [clean_track])
    | some l0 =>
      cases he : l0.isEmpty <;> simp only [clean_track, he, Bool.false_eq_true,
        if_false, if_true, Option.some.injEq] at hl
      · rw [← hl, clean_lyrics_data_eq_filter]
        rfl
      · have h0 : l0 = [] := by simpa [List.isEmpty_iff] using he
        subst h0
        simp [← hl]
  exact ⟨fun l hl => track b.orig l hl, fun l hl => track b.ts l hl,
    fun l hl => track b.roma l hl⟩

/-- Witness for `clean_bundle_filters_placeholder` on a concrete bundle. -/
theorem clean_bundle_filters_placeholder_witness :
    (clean_lyrics_bundle
        ⟨⟨Source.QM, none, none, none, none, none⟩, [],
          some [⟨none, none, [⟨none, none, "//"⟩]⟩,
                ⟨none, none, [⟨none, none, "keep"⟩]⟩], none, none⟩).orig
        = some [⟨none, none, [⟨none, none, "keep"⟩]⟩] ∧
      [LyricsLine.mk none none [⟨none, none, "keep"⟩]] =
        ((some [LyricsLine.mk none none [⟨none, none, "//"⟩],
                ⟨none, none, [⟨none, none, "keep"⟩]⟩] : Option (List LyricsLine)).getD
            []).filter (fun ln => !(pyStrip ln.text == "//")) := by
  refine ⟨by rfl, ?_⟩
  exact (clean_bundle_filters_placeholder
      ⟨⟨Source.QM, none, none, none, none, none⟩, [],
        some [⟨none, none, [⟨none, none, "//"⟩]⟩,
              ⟨none, none, [⟨none, none, "keep"⟩]⟩], none, none⟩).1
    [⟨none, none, [⟨none, none, "keep"⟩]⟩] (by rfl)

/-! ## Candidate ranking (fetch.py lines 57-63 and 116-139) -/

/-- A fetched candidate as ranked by `fetch_lyrics_bundle`: the candidate's
match score (`_ScoredSong.score`, a float modelled by `ℚ`) together with the
fetched bundle. -/
structure ScoredBundle where
  score : ℚ
  bundle : LyricsBundle

/-- `_is_verbatim` (fetch.py lines 57-63): false on a falsy `orig`; otherwise
true iff some line has more than one word of which at least one carries a
start time. -/
def is_verbatim (b : LyricsBundle) : Bool :=
  match b.orig with
  | none => false
  | some lns =>
    if lns.isEmpty then false
    else lns.any (fun ln =>
      decide (1 < ln.words.length) && ln.words.any (fun w => w.start.isSome))

/-- Python truthiness of the `ts` track (`bundle.ts` in the rank tuple). -/
def tsTruthy (b : LyricsBundle) : Bool :=
  match b.ts with
  | some l => !l.isEmpty
  | none => false

/-- The rank tuple of fetch.py lines 129-137, compared lexicographically the
way Python compares tuples. -/
abbrev Rank := ℚ ×ₗ Int ×ₗ Int ×ₗ Int

/-- `rank` (fetch.py lines 129-137): `(score, verbatim bonus, translation
bonus, -sources.index(source))`. -/
def rank (sources : List Source) (mode translation : String)
    (it : ScoredBundle) : Rank :=
  toLex (it.score,
    toLex ((if mode ≠ "line" ∧ is_verbatim it.bundle = true then (1 : Int) else 0),
      toLex ((if translation ≠ "none" ∧ tsTruthy it.bundle = true then (1 : Int) else 0),
        (if it.bundle.song.source ∈ sources
          then -(sources.indexOf it.bundle.song.source : Int) else 0))))

/-- Modelled from the claim's words (the refinement target, deliberately not
from the source): `verbatim_preferred_bonus = 1` iff the bundle has at least
one line with more than one *timed* word (more than one word with a start
time). -/
def claim_is_verbatim (b : LyricsBundle) : Bool :=
  (b.orig.getD []).any (fun ln =>
    decide (1 < (ln.words.filter (fun w => w.start.isSome)).length))

/-- The rank tuple as the claim words it, with `claim_is_verbatim` in place
of the source's `_is_verbatim`. -/
def claim_rank (sources : List Source) (mode translation : String)
    (it : ScoredBundle) : Rank :=
  toLex (it.score,
    toLex ((if mode ≠ "line" ∧ claim_is_verbatim it.bundle = true then (1 : Int) else 0),
      toLex ((if translation ≠ "none" ∧ tsTruthy it.bundle = true then (1 : Int) else 0),
        (if it.bundle.song.source ∈ sources
          then -(sources.indexOf it.bundle.song.source : Int) else 0))))

/-- Python `max(xs, key=k)` over the non-empty list `x :: xs`: a later element
replaces the current best only when its key is strictly greater, so the first
maximal element wins. -/
def pyMaxBy {α κ : Type} [LinearOrder κ] (k : α → κ) (x : α) (xs : List α) : α :=
  xs.foldl (fun best y => if k best < k y then y else best) x

theorem pyMaxBy_max {α κ : Type} [LinearOrder κ] (k : α → κ) (x : α) (xs : List α) :
    ∀ y ∈ x :: xs, k y ≤ k (pyMaxBy k x xs) := by
  induction xs generalizing x with
  | nil =>
    intro y hy
    rw [List.mem_singleton] at hy
    subst hy
    exact le_refl _
  | cons z zs ih =>
    intro y hy
    have hfold : pyMaxBy k x (z :: zs) = pyMaxBy k (if k x < k z then z else x) zs := rfl
    rw [hfold]
    have hxz : k x ≤ k (if k x < k z then z else x) := by
      by_cases h : k x < k z
      · rw [if_pos h]; exact le_of_lt h
      · rw [if_neg h]
    have hzz : k z ≤ k (if k x < k z then z else x) := by
      by_cases h : k x < k z
      · rw [if_pos h]
      · rw [if_neg h]; exact le_of_not_lt h
    have hbest := ih (if k x < k z then z else x) _
      (List.mem_cons_self (if k x < k z then z else x) zs)
    rcases List.mem_cons.mp hy with hyx | hy2
    · subst hyx; exact hxz.trans hbest
    rcases List.mem_cons.mp hy2 with hyz | hyzs
    · subst hyz; exact hzz.trans hbest
    · exact ih _ y (List.mem_cons_of_mem _ hyzs)

/-- C1 counterexample: with two equal-score fetched bundles, the code selects
bundle `A` (one line, two words, only one timed — `_is_verbatim` true), but
under the claim's rank tuple (`verbatim_preferred_bonus` requiring more than
one *timed* word) the selected bundle's tuple is not maximal: bundle `B` from
the earlier source has a strictly greater claim tuple. -/
theorem fetch_rank_claim_counterexample :
    let sources := [Source.LRCLIB, Source.QM]
    let bA : LyricsBundle := ⟨⟨Source.QM, none, none, none, none, none⟩, [],
      some [⟨some 0, none, [⟨some 0, none, "a"⟩, ⟨none, none, "b"⟩]⟩], none, none⟩
    let bB : LyricsBundle := ⟨⟨Source.LRCLIB, none, none, none, none, none⟩, [],
      some [⟨some 0, none, [⟨some 0, none, "x"⟩]⟩], none, none⟩
    let A : ScoredBundle := ⟨50, bA⟩
    let B : ScoredBundle := ⟨50, bB⟩
    ¬ (∀ y ∈ [A, B], claim_rank sources "verbatim" "none" y ≤
        claim_rank sources "verbatim" "none"
          (pyMaxBy (rank sources "verbatim" "none") A [B])) := by
  decide

/-- C1 amended: for every non-empty list of fetched candidate bundles,
`fetch_lyrics_bundle` selects a bundle whose lexicographic rank tuple
(candidate score, verbatim_preferred_bonus, translation_available_bonus,
source_priority_bonus) is maximal, where `verbatim_preferred_bonus = 1` iff
mode is not "line" and the bundle has at least one line with more than one
word of which at least one is timed, `translation_available_bonus = 1` iff
translation was requested and `ts` is non-empty, and remaining ties are
broken in favor of the source appearing earlier in the caller-supplied
sources order (the negated source index component). -/
theorem fetch_selected_rank_maximal (sources : List Source)
    (mode translation : String) (x : ScoredBundle) (xs : List ScoredBundle) :
    ∀ y ∈ x :: xs, rank sources mode translation y ≤
      rank sources mode translation
        (pyMaxBy (rank sources mode translation) x xs) :=
  pyMaxBy_max (rank sources mode translation) x xs

/-- Witness for `fetch_selected_rank_maximal` on a concrete candidate list. -/
theorem fetch_selected_rank_maximal_witness :
    let it : ScoredBundle :=
      ⟨60, ⟨⟨Source.KG, none, none, none, none, none⟩, [], some [], none, none⟩⟩
    it ∈ [it] ∧ rank [Source.KG] "verbatim" "none" it ≤
      rank [Source.KG] "verbatim" "none"
        (pyMaxBy (rank [Source.KG] "verbatim" "none") it []) := by
  refine ⟨List.mem_singleton_self _, ?_⟩
  exact fetch_selected_rank_maximal [Source.KG] "verbatim" "none" _ [] _
    (List.mem_singleton_self _)

/-! ## Translation alignment (lrc_render.py lines 62-93) -/

/-- Python `min(xs, key=k)` over the non-empty list `x :: xs`: a later element
replaces the current best only when its key is strictly smaller, so the first
minimal element wins. -/
def pyMinBy {α κ : Type} [LinearOrder κ] (k : α → κ) (x : α) (xs : List α) : α :=
  xs.foldl (fun best y => if k y < k best then y else best) x

/-- The `ts_by_start` dict of `align_translation` (lrc_render.py line 65):
`{ln.start: ln for ln in ts if ln.start is not None}`, later lines winning on
duplicate starts. -/
def ts_by_start (ts : List LyricsLine) : List (Int × LyricsLine) :=
  ts.foldl (fun m ln =>
    match ln.start with
    | some s => dictSet s ln m
    | none => m) []

/-- One step of the exact-start-match loop of `align_translation`
(lrc_render.py lines 68-70). -/
def exactStep (tsb : List (Int × LyricsLine)) (out : List (Nat × LyricsLine))
    (io : Nat × LyricsLine) : List (Nat × LyricsLine) :=
  match io.2.start with
  | some s =>
    match dictGet s tsb with
    | some t => dictSet io.1 t out
    | none => out
  | none => out

/-- One step of the nearest-start loop of `align_translation`
(lrc_render.py lines 86-92), given the non-empty `ts_with_start` list
`t0 :: trest`.  The key is `abs((t.start or 0) - o.start)`; `t.start or 0`
equals `t.start.getD 0` (Python truthiness sends both `None` and `0` to 0). -/
def nearStep (t0 : LyricsLine) (trest : List LyricsLine)
    (out : List (Nat × LyricsLine)) (io : Nat × LyricsLine) :
    List (Nat × LyricsLine) :=
  if (dictGet io.1 out).isSome then out
  else
    match io.2.start with
    | none => out
    | some s => dictSet io.1 (pyMinBy (fun t => |t.start.getD 0 - s|) t0 trest) out

/-- `align_translation` (lrc_render.py lines 62-93): tier 1 exact start match,
tier 2 positional fill when lengths agree, tier 3 nearest start.  The Python
`dict[int, LyricsLine]` result is an association list with unique keys. -/
def align_translation (orig ts : List LyricsLine) : List (Nat × LyricsLine) :=
  let tsb := ts_by_start ts
  let out := orig.enum.foldl (exactStep tsb) []
  if out.length = orig.length then out
  else if orig.length = ts.length then
    ts.enum.foldl (fun out it => dictSetdefault it.1 it.2 out) out
  else
    match ts.filter (fun ln => ln.start.isSome) with
    | [] => out
    | t0 :: trest => orig.enum.foldl (nearStep t0 trest) out

/-! ### Dict lemmas for the alignment proof -/

theorem dictGet_dictSet_ne {κ α : Type} [DecidableEq κ] {k k' : κ} (h : k' ≠ k)
    (v : α) (d : List (κ × α)) : dictGet k (dictSet k' v d) = dictGet k d := by
  induction d with
  | nil => simp [dictGet, dictSet, h]
  | cons hd tl ih =>
    obtain ⟨k0, v0⟩ := hd
    by_cases h0 : k0 = k'
    · subst h0
      simp [dictGet, dictSet, h]
    · simp only [dictSet, if_neg h0]
      by_cases h1 : k0 = k
      · simp [dictGet, h1]
      · simp [dictGet, h1, ih]

theorem dictGet_dictSetdefault_self {κ α : Type} [DecidableEq κ] (k : κ) (v : α)
    (d : List (κ × α)) :
    dictGet k (dictSetdefault k v d) = some ((dictGet k d).getD v) := by
  unfold dictSetdefault
  cases h : dictGet k d with
  | none => simp [h, dictGet_dictSet_self]
  | some w => simp [h]

theorem dictGet_dictSetdefault_ne {κ α : Type} [DecidableEq κ] {k k' : κ}
    (h : k' ≠ k) (v : α) (d : List (κ × α)) :
    dictGet k (dictSetdefault k' v d) = dictGet k d := by
  unfold dictSetdefault
  cases h' : dictGet k' d with
  | none => simp [dictGet_dictSet_ne h]
  | some w => rfl

/-- Every value stored in `ts_by_start ts` is a member of `ts` carrying the
key as its start time; and every start time occurring in `ts` is present. -/
theorem ts_by_start_spec (ts : List LyricsLine) :
    (∀ s t, dictGet s (ts_by_start ts) = some t → t ∈ ts ∧ t.start = some s) ∧
    (∀ t ∈ ts, ∀ s : Int, t.start = some s → (dictGet s (ts_by_start ts)).isSome) := by
  have main : ∀ (l : List LyricsLine) (acc : List (Int × LyricsLine))
      (P : LyricsLine → Int → Prop),
      (∀ s t, dictGet s acc = some t → P t s) →
      (∀ t ∈ l, ∀ s : Int, t.start = some s → P t s) →
      ∀ s t, dictGet s (l.foldl (fun m ln =>
        match ln.start with
        | some s => dictSet s ln m
        | none => m) acc) = some t → P t s := by
    intro l
    induction l with
    | nil => intro acc P hacc _ s t h; exact hacc s t h
    | cons hd tl ih =>
      intro acc P hacc hl s t h
      rw [List.foldl_cons] at h
      refine ih _ P ?_ (fun t' ht' s' hs' => hl t' (List.mem_cons_of_mem _ ht') s' hs') s t h
      intro s' t' h'
      cases hs0 : hd.start with
      | none =>
        rw [hs0] at h'
        exact hacc s' t' h'
      | some s0 =>
        rw [hs0] at h'
        by_cases he : s0 = s'
        · subst he
          rw [dictGet_dictSet_self] at h'
          cases h'
          exact hl hd (List.mem_cons_self _ _) s0 hs0
        · rw [dictGet_dictSet_ne he] at h'
          exact hacc s' t' h'
  have pres : ∀ (l : List LyricsLine) (acc : List (Int × LyricsLine)) (s : Int),
      (dictGet s acc).isSome →
      (dictGet s (l.foldl (fun m ln =>
        match ln.start with
        | some s => dictSet s ln m
        | none => m) acc)).isSome := by
    intro l
    induction l with
    | nil => intro acc s h; exact h
    | cons hd tl ih =>
      intro acc s h
      rw [List.foldl_cons]
      refine ih _ s ?_
      cases hs0 : hd.start with
      | none => exact h
      | some s0 =>
        by_cases he : s0 = s
        · subst he
          rw [dictGet_dictSet_self]
          rfl
        · rw [dictGet_dictSet_ne he]
          exact h
  have pres2 : ∀ (l : List LyricsLine) (acc : List (Int × LyricsLine)),
      ∀ t ∈ l, ∀ s : Int, t.start = some s →
      (dictGet s (l.foldl (fun m ln =>
        match ln.start with
        | some s => dictSet s ln m
        | none => m) acc)).isSome := by
    intro l
    induction l with
    | nil => intro acc t ht; cases ht
    | cons hd tl ih =>
      intro acc t ht s hs
      rw [List.foldl_cons]
      rcases List.mem_cons.mp ht with h1 | h2
      · subst h1
        rw [hs]
        refine pres tl _ s ?_
        rw [dictGet_dictSet_self]
        rfl
      · exact ih _ t h2 s hs
  constructor
  · intro s t h
    exact main ts [] (fun t s => t ∈ ts ∧ t.start = some s)
      (fun s t h => by simp [dictGet] at h)
      (fun t' ht' s' hs' => ⟨ht', hs'⟩) s t h
  · intro t ht s hs
    exact pres2 ts [] t ht s hs


theorem exactStep_start_none {tsb : List (Int × LyricsLine)}
    {out : List (Nat × LyricsLine)} (io : Nat × LyricsLine)
    (h : io.2.start = none) : exactStep tsb out io = out := by
  simp only [exactStep, h]

theorem exactStep_miss {tsb : List (Int × LyricsLine)}
    {out : List (Nat × LyricsLine)} (io : Nat × LyricsLine) {s : Int}
    (h : io.2.start = some s) (ht : dictGet s tsb = none) :
    exactStep tsb out io = out := by
  simp only [exactStep, h, ht]

theorem exactStep_hit {tsb : List (Int × LyricsLine)}
    {out : List (Nat × LyricsLine)} (io : Nat × LyricsLine) {s : Int}
    {t : LyricsLine} (h : io.2.start = some s) (ht : dictGet s tsb = some t) :
    exactStep tsb out io = dictSet io.1 t out := by
  simp only [exactStep, h, ht]

/-- The exact-match loop writes only keys `≥ n`, so smaller keys are
untouched. -/
theorem exact_preserve_lower (tsb : List (Int × LyricsLine)) (l : List LyricsLine) :
    ∀ (n : Nat) (acc : List (Nat × LyricsLine)) (j : Nat), j < n →
      dictGet j ((List.enumFrom n l).foldl (exactStep tsb) acc) = dictGet j acc := by
  induction l with
  | nil => intro n acc j _; rfl
  | cons hd tl ih =>
    intro n acc j h
    rw [show List.enumFrom n (hd :: tl) = (n, hd) :: List.enumFrom (n + 1) tl from rfl,
      List.foldl_cons, ih (n + 1) _ j (by omega)]
    cases hs : hd.start with
    | none => rw [exactStep_start_none (n, hd) hs]
    | some s =>
      cases ht : dictGet s tsb with
      | none => rw [exactStep_miss (n, hd) hs ht]
      | some t =>
        rw [exactStep_hit (n, hd) hs ht]
        exact dictGet_dictSet_ne (show n ≠ j by omega) t acc

/-- Value of the exact-match loop at index `i`: the `ts_by_start` lookup of
the `i`-th original line's start. -/
theorem exact_compute (tsb : List (Int × LyricsLine)) (l : List LyricsLine) :
    ∀ (n : Nat) (acc : List (Nat × LyricsLine)),
      (∀ m, n ≤ m → dictGet m acc = none) →
      ∀ i o, l.get? i = some o →
        dictGet (n + i) ((List.enumFrom n l).foldl (exactStep tsb) acc) =
          o.start.bind (fun s => dictGet s tsb) := by
  induction l with
  | nil => intro n acc _ i o h; simp at h
  | cons hd tl ih =>
    intro n acc hacc i o h
    rw [show List.enumFrom n (hd :: tl) = (n, hd) :: List.enumFrom (n + 1) tl from rfl,
      List.foldl_cons]
    cases i with
    | zero =>
      have ho : hd = o := by simpa using h
      subst ho
      rw [Nat.add_zero, exact_preserve_lower tsb tl (n + 1) _ n (by omega)]
      cases hs : hd.start with
      | none =>
        rw [exactStep_start_none (n, hd) hs, Option.none_bind]
        exact hacc n (le_refl n)
      | some s =>
        rw [Option.some_bind]
        cases ht : dictGet s tsb with
        | none =>
          rw [exactStep_miss (n, hd) hs ht]
          exact hacc n (le_refl n)
        | some t =>
          rw [exactStep_hit (n, hd) hs ht]
          exact dictGet_dictSet_self n t acc
    | succ i' =>
      have h' : tl.get? i' = some o := by simpa using h
      rw [show n + (i' + 1) = (n + 1) + i' from by omega]
      refine ih (n + 1) (exactStep tsb acc (n, hd)) ?_ i' o h'
      intro m hm
      cases hs : hd.start with
      | none =>
        rw [exactStep_start_none (n, hd) hs]
        exact hacc m (by omega)
      | some s =>
        cases ht : dictGet s tsb with
        | none =>
          rw [exactStep_miss (n, hd) hs ht]
          exact hacc m (by omega)
        | some t =>
          rw [exactStep_hit (n, hd) hs ht]
          rw [dictGet_dictSet_ne (show n ≠ m by omega)]
          exact hacc m (by omega)

/-- When no original start has an exact `ts_by_start` hit, the exact-match
loop adds nothing. -/
theorem exact_nomatch (tsb : List (Int × LyricsLine)) :
    ∀ (l : List LyricsLine),
      (∀ o ∈ l, ∀ s : Int, o.start = some s → dictGet s tsb = none) →
      ∀ (n : Nat) (acc : List (Nat × LyricsLine)),
        (List.enumFrom n l).foldl (exactStep tsb) acc = acc := by
  intro l
  induction l with
  | nil => intro _ n acc; rfl
  | cons hd tl ih =>
    intro hl n acc
    rw [show List.enumFrom n (hd :: tl) = (n, hd) :: List.enumFrom (n + 1) tl from rfl,
      List.foldl_cons]
    have hstep : exactStep tsb acc (n, hd) = acc := by
      cases hs : hd.start with
      | none => exact exactStep_start_none (n, hd) hs
      | some s =>
        exact exactStep_miss (n, hd) hs (hl hd (List.mem_cons_self _ _) s hs)
    rw [hstep]
    exact ih (fun o ho s hs => hl o (List.mem_cons_of_mem _ ho) s hs) (n + 1) acc

/-- The positional fill (`setdefault`) never overwrites an existing entry. -/
theorem setdefault_preserve (l : List (Nat × LyricsLine)) :
    ∀ (acc : List (Nat × LyricsLine)) (j : Nat) (v : LyricsLine),
      dictGet j acc = some v →
      dictGet j (l.foldl (fun out it => dictSetdefault it.1 it.2 out) acc) = some v := by
  induction l with
  | nil => exact fun _ _ _ h => h
  | cons hd tl ih =>
    intro acc j v h
    rw [List.foldl_cons]
    apply ih
    by_cases he : hd.1 = j
    · subst he
      rw [dictGet_dictSetdefault_self, h]
      rfl
    · rw [dictGet_dictSetdefault_ne he]
      exact h

/-- Value of the positional fill at index `i` when the accumulator is empty
at and above `n`: the `i`-th translation line. -/
theorem setdefault_compute (l : List LyricsLine) :
    ∀ (n : Nat) (acc : List (Nat × LyricsLine)),
      (∀ m, n ≤ m → dictGet m acc = none) →
      ∀ i o, l.get? i = some o →
        dictGet (n + i)
          ((List.enumFrom n l).foldl (fun out it => dictSetdefault it.1 it.2 out) acc)
          = some o := by
  induction l with
  | nil => intro n acc _ i o h; simp at h
  | cons hd tl ih =>
    intro n acc hacc i o h
    rw [show List.enumFrom n (hd :: tl) = (n, hd) :: List.enumFrom (n + 1) tl from rfl,
      List.foldl_cons]
    cases i with
    | zero =>
      have ho : hd = o := by simpa using h
      subst ho
      rw [Nat.add_zero]
      apply setdefault_preserve
      rw [dictGet_dictSetdefault_self, hacc n (le_refl n)]
      rfl
    | succ i' =>
      have h' : tl.get? i' = some o := by simpa using h
      rw [show n + (i' + 1) = (n + 1) + i' from by omega]
      refine ih (n + 1) _ ?_ i' o h'
      intro m hm
      rw [dictGet_dictSetdefault_ne (show n ≠ m by omega)]
      exact hacc m (by omega)

/-- C3: for equal-length tracks, (i) when no orig start equals any ts start
the alignment maps every index `i` to the ts line at index `i`; (ii) whenever
an orig line's start equals a ts line's start, that index is mapped to an
exact-start match from `ts` (exact matches take precedence over the
positional fill). -/
theorem align_translation_spec (orig ts : List LyricsLine)
    (hlen : orig.length = ts.length) :
    ((∀ o ∈ orig, ∀ t ∈ ts, ∀ s : Int, o.start = some s → t.start ≠ some s) →
      ∀ i, i < orig.length → dictGet i (align_translation orig ts) = ts.get? i) ∧
    (∀ i (hi : i < orig.length) (s : Int), (orig.get ⟨i, hi⟩).start = some s →
      (∃ t ∈ ts, t.start = some s) →
      ∃ t', dictGet i (align_translation orig ts) = some t' ∧ t' ∈ ts ∧
        t'.start = some s) := by
  constructor
  · intro hno i hi
    have hout : (List.enumFrom 0 orig).foldl (exactStep (ts_by_start ts)) [] = [] := by
      refine exact_nomatch (ts_by_start ts) orig ?_ 0 []
      intro o ho s hs
      cases hts : dictGet s (ts_by_start ts) with
      | none => rfl
      | some t =>
        obtain ⟨htm, hstart⟩ := (ts_by_start_spec ts).1 s t hts
        exact absurd hstart (hno o ho t htm s hs)
    simp only [align_translation, List.enum]
    rw [hout]
    simp only [List.length_nil]
    by_cases hzero : 0 = orig.length
    · exact absurd hi (by omega)
    · rw [if_neg hzero, if_pos hlen]
      have hts : ts.get? i = some (ts.get ⟨i, by omega⟩) := List.get?_eq_get (by omega)
      rw [hts]
      have := setdefault_compute ts 0 [] (fun m _ => rfl) i _ hts
      rw [Nat.zero_add] at this
      exact this
  · intro i hi s hs hex
    obtain ⟨t, htm, hts⟩ := hex
    have hpres := (ts_by_start_spec ts).2 t htm s hts
    obtain ⟨t', ht'⟩ := Option.isSome_iff_exists.mp hpres
    obtain ⟨ht'm, ht's⟩ := (ts_by_start_spec ts).1 s t' ht'
    have horig : orig.get? i = some (orig.get ⟨i, hi⟩) := List.get?_eq_get hi
    have hout : dictGet i ((List.enumFrom 0 orig).foldl (exactStep (ts_by_start ts)) [])
        = some t' := by
      have hc := exact_compute (ts_by_start ts) orig 0 [] (fun m _ => rfl) i _ horig
      rw [Nat.zero_add] at hc
      rw [hc, hs, Option.some_bind]
      exact ht'
    refine ⟨t', ?_, ht'm, ht's⟩
    simp only [align_translation, List.enum]
    by_cases h1 : ((List.enumFrom 0 orig).foldl (exactStep (ts_by_start ts)) []).length
        = orig.length
    · rw [if_pos h1]
      exact hout
    · rw [if_neg h1, if_pos hlen]
      exact setdefault_preserve _ _ i t' hout

/-- Witness for `align_translation_spec` on concrete one-line tracks with
distinct starts. -/
theorem align_translation_spec_witness :
    ([LyricsLine.mk (some 10) none [⟨some 10, none, "o"⟩]].length
        = [LyricsLine.mk (some 20) none [⟨some 20, none, "t"⟩]].length) ∧
      dictGet 0 (align_translation
          [⟨some 10, none, [⟨some 10, none, "o"⟩]⟩]
          [⟨some 20, none, [⟨some 20, none, "t"⟩]⟩])
        = [LyricsLine.mk (some 20) none [⟨some 20, none, "t"⟩]].get? 0 := by
  refine ⟨rfl, ?_⟩
  exact (align_translation_spec
      [⟨some 10, none, [⟨some 10, none, "o"⟩]⟩]
      [⟨some 20, none, [⟨some 20, none, "t"⟩]⟩] rfl).1
    (by decide) 0 (by decide)

/-! ## Renderer (lrc_render.py lines 12-155) -/

/-- `_line_text` (lrc_render.py lines 25-26): join the word texts, skipping
empty ones. -/
def line_text (words : List LyricsWord) : String :=
  String.join ((words.filter (fun w => !(w.text == ""))).map (fun w => w.text))

/-- The `adj` closure of `render_lrc` (lrc_render.py lines 110-111):
`max(t + offset_ms, 0) if t is not None else None`. -/
def adj (offset_ms : Int) : Option Int → Option Int
  | some t => some (max (t + offset_ms) 0)
  | none => none

/-- One iteration of the word loop of `lyrics_line2str` (lrc_render.py lines
47-54), over the state `(text, last_end)`.  The emitted start stamp is
`max(start, line_start_time if line_start_time is not None else start)`. -/
def wordStep (ms_converter : Int → String) (symbols : String × String)
    (line_start_time : Option Int) (st : String × Option Int)
    (word : LyricsWord) : String × Option Int :=
  let text := st.1
  let last_end := st.2
  let text :=
    match word.start with
    | some ws =>
      if some ws ≠ last_end then
        text ++ symbols.1 ++ ms_converter (max ws (line_start_time.getD ws)) ++ symbols.2
      else text
    | none => text
  let text := text ++ word.text
  let text :=
    match word.«end» with
    | some we => text ++ symbols.1 ++ ms_converter we ++ symbols.2
    | none => text
  (text, word.«end»)

/-- `lyrics_line2str` (lrc_render.py lines 29-59). -/
def lyrics_line2str (line : LyricsLine) (mode : String)
    (line_start_time line_end_time : Option Int)
    (ms_converter : Int → String) : String :=
  let text :=
    match line_start_time with
    | some t => "[" ++ ms_converter t ++ "]"
    | none => ""
  if mode == "line" then text ++ line_text line.words
  else
    let symbols : String × String := if mode == "verbatim" then ("[", "]") else ("<", ">")
    let res := line.words.foldl (wordStep ms_converter symbols line_start_time)
      (text, if mode == "verbatim" then line.start else none)
    match line_end_time with
    | some e =>
      if !(res.1.endsWith symbols.2) then res.1 ++ symbols.1 ++ ms_converter e ++ symbols.2
      else res.1
    | none => res.1

/-- `line_start_time` of the render loop (lrc_render.py line 128). -/
def lineStartTime (oline : LyricsLine) : Option Int :=
  match oline.words.head? with
  | some w => if w.start.isSome then w.start else oline.start
  | none => oline.start

/-- `line_end_time` of the render loop (lrc_render.py line 129). -/
def lineEndTime (oline : LyricsLine) : Option Int :=
  match oline.words.getLast? with
  | some w => if w.«end».isSome then w.«end» else oline.«end»
  | none => oline.«end»

/-- Offset-adjusting every word of a line (lrc_render.py lines 132 and 144). -/
def adjWords (offset_ms : Int) (ws : List LyricsWord) : List LyricsWord :=
  ws.map (fun w => ⟨adj offset_ms w.start, adj offset_ms w.«end», w.text⟩)

/-- Python truthiness of an optional list. -/
def optListTruthy {α : Type} : Option (List α) → Bool
  | some l => !l.isEmpty
  | none => false

/-- One iteration of the per-line loop of `render_lrc` (lrc_render.py lines
127-153): render the adjusted original line, then the aligned translation
line (always in "line" mode), then the optional end-timestamp line, where
`adj(line_end_time) or 0` equals `(adj line_end_time).getD 0` because Python
truthiness sends both `None` and `0` to the fallback `0`. -/
def renderLineBlock (ms_converter : Int → String) (offset_ms : Int)
    (mode : String) (add_end_timestamp_line : Bool)
    (ts_map : List (Nat × LyricsLine)) (lines : List String)
    (io : Nat × LyricsLine) : List String :=
  let lines := lines ++ [lyrics_line2str
      ⟨adj offset_ms io.2.start, adj offset_ms io.2.«end», adjWords offset_ms io.2.words⟩
      mode (adj offset_ms (lineStartTime io.2)) (adj offset_ms (lineEndTime io.2))
      ms_converter]
  let lines :=
    match dictGet io.1 ts_map with
    | some tline => lines ++ [lyrics_line2str
        ⟨adj offset_ms tline.start, adj offset_ms tline.«end», adjWords offset_ms tline.words⟩
        "line" (adj offset_ms (if tline.start.isSome then tline.start else io.2.start))
        (adj offset_ms tline.«end») ms_converter]
    | none => lines
  if mode == "line" && add_end_timestamp_line && (lineEndTime io.2).isSome then
    lines ++ ["[" ++ ms_converter ((adj offset_ms (lineEndTime io.2)).getD 0) ++ "]"]
  else lines

/-- The body of `render_lrc` after the converter choice (lrc_render.py lines
108-155), with the chosen `ms_converter` as a parameter. -/
def render_lrc_conv (ms_converter : Int → String) (tags : List (String × String))
    (orig : List LyricsLine) (ts : Option (List LyricsLine)) (mode : String)
    (include_translation : Bool) (offset_ms : Int)
    (add_end_timestamp_line : Bool) : String :=
  let head := ["ti", "ar", "al", "by"].foldl (fun head k =>
    match dictGet k tags with
    | some v => if v ≠ "" then head ++ ["[" ++ k ++ ":" ++ v ++ "]"] else head
    | none => head) []
  let head := if offset_ms ≠ 0 then head ++ ["[offset:" ++ toString offset_ms ++ "]"] else head
  let head := head ++ ["[tool:lddc-fetch-core]"]
  let lines : List String := if !head.isEmpty then [String.intercalate "\n" head, ""] else []
  let ts_map := if include_translation && optListTruthy ts
    then align_translation orig (ts.getD []) else []
  let lines := orig.enum.foldl
    (renderLineBlock ms_converter offset_ms mode add_end_timestamp_line ts_map) lines
  pyStrip (String.intercalate "\n" lines) ++ "\n"

/-- `render_lrc` (lrc_render.py lines 96-155): choose the time converter by
`ms_digits` and render.  The `source` parameter is carried but unused, as in
the Python signature. -/
def render_lrc (source : Source) (tags : List (String × String))
    (orig : List LyricsLine) (ts : Option (List LyricsLine)) (mode : String)
    (include_translation : Bool) (offset_ms : Int) (ms_digits : Int)
    (add_end_timestamp_line : Bool) : String :=
  render_lrc_conv (if ms_digits == 2 then ms2roundedtime else ms2formattime)
    tags orig ts mode include_translation offset_ms add_end_timestamp_line

/-! ### Clamping lemmas for the renderer -/

theorem adj_nonneg (offset_ms : Int) (o : Option Int) (v : Int)
    (h : adj offset_ms o = some v) : 0 ≤ v := by
  cases o with
  | none => simp [adj] at h
  | some u =>
    simp only [adj, Option.some.injEq] at h
    omega

theorem adj_getD_nonneg (offset_ms : Int) (o : Option Int) :
    0 ≤ (adj offset_ms o).getD 0 := by
  cases o with
  | none => simp [adj]
  | some u =>
    simp only [adj, Option.getD_some]
    omega

theorem wordStep_clamp (cv : Int → String) (symbols : String × String)
    (lst : Option Int) (st : String × Option Int) (w : LyricsWord)
    (hws : ∀ v, w.start = some v → 0 ≤ v)
    (hwe : ∀ v, w.«end» = some v → 0 ≤ v) :
    wordStep cv symbols lst st w
      = wordStep (fun t => cv (max t 0)) symbols lst st w := by
  cases hs : w.start with
  | none =>
    cases he : w.«end» with
    | none => simp only [wordStep, hs, he]
    | some we =>
      have h0 := hwe we he
      simp only [wordStep, hs, he]
      rw [show max we 0 = we from by omega]
  | some ws =>
    have h0 := hws ws hs
    cases he : w.«end» with
    | none =>
      simp only [wordStep, hs, he]
      rw [show max (max ws (lst.getD ws)) 0 = max ws (lst.getD ws) from by
        rcases lst with _ | u <;> simp [Option.getD] <;> omega]
    | some we =>
      have h1 := hwe we he
      simp only [wordStep, hs, he]
      rw [show max (max ws (lst.getD ws)) 0 = max ws (lst.getD ws) from by
        rcases lst with _ | u <;> simp [Option.getD] <;> omega,
        show max we 0 = we from by omega]

theorem foldl_wordStep_clamp (cv : Int → String) (symbols : String × String)
    (lst : Option Int) :
    ∀ (ws : List LyricsWord),
      (∀ w ∈ ws, (∀ v, w.start = some v → 0 ≤ v) ∧ (∀ v, w.«end» = some v → 0 ≤ v)) →
      ∀ st, ws.foldl (wordStep cv symbols lst) st
          = ws.foldl (wordStep (fun t => cv (max t 0)) symbols lst) st := by
  intro ws
  induction ws with
  | nil => intro _ _; rfl
  | cons hd tl ih =>
    intro h st
    rw [List.foldl_cons, List.foldl_cons,
      wordStep_clamp cv symbols lst st hd (h hd (List.mem_cons_self _ _)).1
        (h hd (List.mem_cons_self _ _)).2]
    exact ih (fun w hw => h w (List.mem_cons_of_mem _ hw)) _

theorem initText_clamp (cv : Int → String) :
    ∀ (lst : Option Int), (∀ v, lst = some v → 0 ≤ v) →
    (match lst with
      | some t => "[" ++ cv t ++ "]"
      | none => "")
    = (match lst with
      | some t => "[" ++ cv (max t 0) ++ "]"
      | none => "") := by
  intro lst
  cases lst with
  | none => intro _; rfl
  | some t =>
    intro h
    have h0 := h t rfl
    simp only
    rw [show max t 0 = t from by omega]

theorem endText_clamp (cv : Int → String) (sy : String × String) (txt : String) :
    ∀ (le : Option Int), (∀ v, le = some v → 0 ≤ v) →
    (match le with
      | some e => if !(txt.endsWith sy.2) then txt ++ sy.1 ++ cv e ++ sy.2 else txt
      | none => txt)
    = (match le with
      | some e => if !(txt.endsWith sy.2) then txt ++ sy.1 ++ cv (max e 0) ++ sy.2 else txt
      | none => txt) := by
  intro le
  cases le with
  | none => intro _; rfl
  | some e =>
    intro h
    have h0 := h e rfl
    simp only
    rw [show max e 0 = e from by omega]

theorem lyrics_line2str_clamp (line : LyricsLine) (mode : String)
    (lst le : Option Int) (cv : Int → String)
    (hw : ∀ w ∈ line.words,
      (∀ v, w.start = some v → 0 ≤ v) ∧ (∀ v, w.«end» = some v → 0 ≤ v))
    (hlst : ∀ v, lst = some v → 0 ≤ v)
    (hle : ∀ v, le = some v → 0 ≤ v) :
    lyrics_line2str line mode lst le cv
      = lyrics_line2str line mode lst le (fun t => cv (max t 0)) := by
  simp only [lyrics_line2str]
  rw [← initText_clamp cv lst hlst]
  by_cases hm : (mode == "line") = true
  · rw [if_pos hm, if_pos hm]
  · rw [if_neg hm, if_neg hm]
    rw [← foldl_wordStep_clamp cv
      (if (mode == "verbatim") = true then ("[", "]") else ("<", ">")) lst
      line.words hw]
    exact endText_clamp cv _ _ le hle

theorem renderLineBlock_clamp (cv : Int → String) (offset_ms : Int)
    (mode : String) (aet : Bool) (ts_map : List (Nat × LyricsLine))
    (lines : List String) (io : Nat × LyricsLine) :
    renderLineBlock cv offset_ms mode aet ts_map lines io
      = renderLineBlock (fun t => cv (max t 0)) offset_ms mode aet ts_map lines io := by
  have hwords : ∀ (ws : List LyricsWord), ∀ w ∈ adjWords offset_ms ws,
      (∀ v, w.start = some v → 0 ≤ v) ∧ (∀ v, w.«end» = some v → 0 ≤ v) := by
    intro ws w hw
    simp only [adjWords, List.mem_map] at hw
    obtain ⟨w0, _, rfl⟩ := hw
    exact ⟨fun v h => adj_nonneg offset_ms w0.start v h,
      fun v h => adj_nonneg offset_ms w0.«end» v h⟩
  have hA := lyrics_line2str_clamp
    ⟨adj offset_ms io.2.start, adj offset_ms io.2.«end», adjWords offset_ms io.2.words⟩
    mode (adj offset_ms (lineStartTime io.2)) (adj offset_ms (lineEndTime io.2)) cv
    (hwords io.2.words)
    (fun v h => adj_nonneg _ _ v h) (fun v h => adj_nonneg _ _ v h)
  simp only [renderLineBlock]
  rw [hA]
  cases hdg : dictGet io.1 ts_map with
  | none =>
    simp only
    rw [show max ((adj offset_ms (lineEndTime io.2)).getD 0) 0
        = (adj offset_ms (lineEndTime io.2)).getD 0 from by
      have := adj_getD_nonneg offset_ms (lineEndTime io.2); omega]
  | some tline =>
    have hB := lyrics_line2str_clamp
      ⟨adj offset_ms tline.start, adj offset_ms tline.«end», adjWords offset_ms tline.words⟩
      "line" (adj offset_ms (if tline.start.isSome then tline.start else io.2.start))
      (adj offset_ms tline.«end») cv
      (hwords tline.words)
      (fun v h => adj_nonneg _ _ v h) (fun v h => adj_nonneg _ _ v h)
    simp only
    rw [hB]
    rw [show max ((adj offset_ms (lineEndTime io.2)).getD 0) 0
        = (adj offset_ms (lineEndTime io.2)).getD 0 from by
      have := adj_getD_nonneg offset_ms (lineEndTime io.2); omega]

theorem foldl_renderLineBlock_clamp (cv : Int → String) (offset_ms : Int)
    (mode : String) (aet : Bool) (ts_map : List (Nat × LyricsLine)) :
    ∀ (l : List (Nat × LyricsLine)) (acc : List String),
      l.foldl (renderLineBlock cv offset_ms mode aet ts_map) acc
        = l.foldl (renderLineBlock (fun t => cv (max t 0)) offset_ms mode aet ts_map) acc := by
  intro l
  induction l with
  | nil => intro _; rfl
  | cons hd tl ih =>
    intro acc
    rw [List.foldl_cons, List.foldl_cons, renderLineBlock_clamp]
    exact ih _

/-- C5: `render_lrc` adds `offset_ms` to every timestamp and clamps the
result at 0, so no rendered time field is ever below `00:00.000` (or
`00:00.00` at 2-digit resolution): (i) the renderer's `adj` adds the offset
and clamps at 0 (hence only non-negative adjusted values exist); (ii) both
time formatters themselves floor their input at 0, so a formatted field is
never below `00:00.000` / `00:00.00`; (iii) clamping every value handed to
the time formatter at 0 leaves the rendered output unchanged — every
formatted timestamp is already the clamped one; (iv) `render_lrc` is this
body at the `ms_digits`-chosen formatter. -/
theorem render_clamps_at_zero :
    (∀ (offset_ms u : Int),
      adj offset_ms (some u) = some (max (u + offset_ms) 0) ∧
        0 ≤ max (u + offset_ms) 0) ∧
    (∀ ms : Int, ms2formattime ms = ms2formattime (max ms 0) ∧
      ms2roundedtime ms = ms2roundedtime (max ms 0)) ∧
    (∀ (cv : Int → String) (tags : List (String × String)) (orig : List LyricsLine)
      (ts : Option (List LyricsLine)) (mode : String) (it : Bool) (offset_ms : Int)
      (aet : Bool),
      render_lrc_conv cv tags orig ts mode it offset_ms aet
        = render_lrc_conv (fun t => cv (max t 0)) tags orig ts mode it offset_ms aet) ∧
    (∀ (source : Source) (tags : List (String × String)) (orig : List LyricsLine)
      (ts : Option (List LyricsLine)) (mode : String) (it : Bool) (offset_ms : Int)
      (ms_digits : Int) (aet : Bool),
      render_lrc source tags orig ts mode it offset_ms ms_digits aet
        = render_lrc_conv (if ms_digits == 2 then ms2roundedtime else ms2formattime)
            tags orig ts mode it offset_ms aet) := by
  refine ⟨?_, ?_, ?_, ?_⟩
  · intro offset_ms u
    exact ⟨rfl, le_max_right _ _⟩
  · intro ms
    constructor
    · simp only [ms2formattime, fmtFields]
      rw [show max (max ms 0) 0 = max ms 0 from by omega]
    · simp only [ms2roundedtime, roundedFields]
      rw [show max (max ms 0) 0 = max ms 0 from by omega]
  · intro cv tags orig ts mode it offset_ms aet
    simp only [render_lrc_conv]
    rw [foldl_renderLineBlock_clamp]
  · intro source tags orig ts mode it offset_ms ms_digits aet
    rfl

/-! ## LRC parser (parsers/lrc.py)

The regular expressions of lrc.py are deterministic token grammars; they are
embedded as character-list scanners.  `\d` and `\w` are modelled over ASCII. -/

/-- `str.splitlines()` over `\n`, `\r\n` and `\r`, accumulating the current
line in reverse. -/
def splitlinesAux : List Char → List Char → List (List Char)
  | [], cur => if cur.isEmpty then [] else [cur.reverse]
  | '\r' :: '\n' :: rest, cur => cur.reverse :: splitlinesAux rest []
  | '\n' :: rest, cur => cur.reverse :: splitlinesAux rest []
  | '\r' :: rest, cur => cur.reverse :: splitlinesAux rest []
  | c :: rest, cur => splitlinesAux rest (c :: cur)

/-- `str.splitlines()`: no trailing empty line for a terminator-final string,
`[]` for the empty string. -/
def pySplitlines (l : List Char) : List (List Char) := splitlinesAux l []

/-- Literal-prefix test. -/
def startsWithChars : List Char → List Char → Bool
  | [], _ => true
  | _ :: _, [] => false
  | p :: ps, c :: cs => p == c && startsWithChars ps cs

/-- ASCII `\w`: letter, digit or underscore. -/
def isWordChar (c : Char) : Bool :=
  isDigitChar c || (97 ≤ c.toNat && c.toNat ≤ 122) ||
    (65 ≤ c.toNat && c.toNat ≤ 90) || c == '_'


/-- Consume one expected literal character. -/
def expectChar (c : Char) : List Char → Option (List Char)
  | [] => none
  | x :: rest => if x == c then some rest else none

/-- Consume `\d+` (at least one ASCII digit, greedy). -/
def takeDigits1 (l : List Char) : Option (List Char × List Char) :=
  match l.span isDigitChar with
  | (d, r) => if d.isEmpty then none else some (d, r)

/-- The timestamp token `opn(\d+):(\d+)\.(\d+)cls` as a prefix matcher:
digit captures plus the remaining input.  `[`/`]` gives the LRC line/word
timestamp, `<`/`>` the enhanced word timestamp. -/
def delimTs (opn cls : Char) (l : List Char) :
    Option ((List Char × List Char × List Char) × List Char) := do
  let r0 ← expectChar opn l
  let (m, r1) ← takeDigits1 r0
  let r2 ← expectChar ':' r1
  let (s, r3) ← takeDigits1 r2
  let r4 ← expectChar '.' r3
  let (ms, r5) ← takeDigits1 r4
  let rest ← expectChar cls r5
  pure ((m, s, ms), rest)

/-- The pair token `opn(\d+),(\d+)cls` as a prefix matcher (QRC line and word
timestamps). -/
def pairTok (opn cls : Char) (l : List Char) :
    Option ((List Char × List Char) × List Char) := do
  let r0 ← expectChar opn l
  let (a, r1) ← takeDigits1 r0
  let r2 ← expectChar ',' r1
  let (b, r3) ← takeDigits1 r2
  let rest ← expectChar cls r3
  pure ((a, b), rest)

theorem dropWhile_length_le (p : Char → Bool) (l : List Char) :
    (l.dropWhile p).length ≤ l.length := by
  induction l with
  | nil => simp
  | cons hd tl ih =>
    rw [List.dropWhile_cons]
    by_cases h : p hd = true
    · rw [if_pos h]
      exact le_trans ih (by simp)
    · rw [if_neg h]

theorem span_snd_length_le (p : Char → Bool) (l : List Char) :
    (l.span p).2.length ≤ l.length := by
  rw [List.span_eq_take_drop]
  exact dropWhile_length_le p l

theorem expectChar_length {c : Char} {l r : List Char}
    (h : expectChar c l = some r) : r.length < l.length := by
  match l with
  | [] => simp [expectChar] at h
  | x :: rest =>
    simp only [expectChar] at h
    by_cases hx : (x == c) = true
    · rw [if_pos hx] at h
      cases h
      simp
    · rw [if_neg hx] at h
      cases h

theorem takeDigits1_length {l : List Char} {d r : List Char}
    (h : takeDigits1 l = some (d, r)) : r.length ≤ l.length := by
  have hs := span_snd_length_le isDigitChar l
  simp only [takeDigits1] at h
  rcases hsp : l.span isDigitChar with ⟨d', r'⟩
  rw [hsp] at h hs
  simp only at h hs
  by_cases hd : d'.isEmpty
  · rw [hd] at h
    simp at h
  · rw [show d'.isEmpty = false from by simpa using hd] at h
    simp only [Bool.false_eq_true, if_false, Option.some.injEq, Prod.mk.injEq] at h
    rw [← h.2]
    exact hs

theorem delimTs_length {opn cls : Char} {l : List Char}
    {g : List Char × List Char × List Char} {rest : List Char}
    (h : delimTs opn cls l = some (g, rest)) : rest.length < l.length := by
  simp only [delimTs, bind, Option.bind_eq_some] at h
  obtain ⟨r0, h0, x1, h1, h'⟩ := h
  obtain ⟨m, r1⟩ := x1
  simp only [Option.bind_eq_some] at h'
  obtain ⟨r2, h2, x3, h3, h'⟩ := h'
  obtain ⟨s, r3⟩ := x3
  simp only [Option.bind_eq_some] at h'
  obtain ⟨r4, h4, x5, h5, h'⟩ := h'
  obtain ⟨ms, r5⟩ := x5
  simp only [Option.bind_eq_some, pure, Option.some.injEq] at h'
  obtain ⟨rest', h6, hfin⟩ := h'
  have e0 := expectChar_length h0
  have e1 := takeDigits1_length h1
  have e2 := expectChar_length h2
  have e3 := takeDigits1_length h3
  have e4 := expectChar_length h4
  have e5 := takeDigits1_length h5
  have e6 := expectChar_length h6
  have : rest = rest' := by
    have := congrArg Prod.snd hfin
    simpa using this.symm
  subst this
  omega

theorem pairTok_length {opn cls : Char} {l : List Char}
    {g : List Char × List Char} {rest : List Char}
    (h : pairTok opn cls l = some (g, rest)) : rest.length < l.length := by
  simp only [pairTok, bind, Option.bind_eq_some] at h
  obtain ⟨r0, h0, x1, h1, h'⟩ := h
  obtain ⟨a, r1⟩ := x1
  simp only [Option.bind_eq_some] at h'
  obtain ⟨r2, h2, x3, h3, h'⟩ := h'
  obtain ⟨b, r3⟩ := x3
  simp only [Option.bind_eq_some, pure, Option.some.injEq] at h'
  obtain ⟨rest', h4, hfin⟩ := h'
  have e0 := expectChar_length h0
  have e1 := takeDigits1_length h1
  have e2 := expectChar_length h2
  have e3 := takeDigits1_length h3
  have e4 := expectChar_length h4
  have : rest = rest' := by
    have := congrArg Prod.snd hfin
    simpa using this.symm
  subst this
  omega

/-- Scan characters until the tokenizer `tok` matches at the current suffix
(the `(?:(?!TOKEN).)*` idiom): returns the consumed prefix and the rest. -/
def scanUntil (tok : List Char → Bool) : List Char → List Char × List Char
  | [] => ([], [])
  | c :: rest =>
    if tok (c :: rest) then ([], c :: rest)
    else
      let (a, b) := scanUntil tok rest
      (c :: a, b)

theorem scanUntil_snd_le (tok : List Char → Bool) (l : List Char) :
    (scanUntil tok l).2.length ≤ l.length := by
  induction l with
  | nil => simp [scanUntil]
  | cons c rest ih =>
    simp only [scanUntil]
    by_cases h : tok (c :: rest) = true
    · rw [if_pos h]
    · rw [if_neg h]
      simp only
      exact le_trans ih (by simp)

/-- `_MULTI_LINE_SPLIT_PATTERN`'s greedy leading-timestamp run (lrc.py line
15): all leading `[m:s.ms]` stamps and the rest of the line.  The scanners
below recurse on a strictly shorter suffix each step (`delimTs_length`), so
they are written structurally over a fuel of `length + 1`, which is always
sufficient and keeps them kernel-reducible. -/
def leadingTimestampsF : Nat → List Char →
    List (List Char × List Char × List Char) × List Char
  | 0, l => ([], l)
  | fuel + 1, l =>
    match delimTs '[' ']' l with
    | some (g, rest) =>
      let (gs, r) := leadingTimestampsF fuel rest
      (g :: gs, r)
    | none => ([], l)

/-- Greedy leading `[m:s.ms]` run, at adequate fuel. -/
def leadingTimestamps (l : List Char) :
    List (List Char × List Char × List Char) × List Char :=
  leadingTimestampsF (l.length + 1) l

/-- `_ENHANCED_WORD_SPLIT_PATTERN.finditer` (lrc.py line 13): each match is a
start stamp, the text up to the next stamp, and — only when a stamp closes
the string — that final stamp as the end group. -/
def enhancedFinditerF : Nat → List Char →
    List ((List Char × List Char × List Char) × List Char ×
      Option (List Char × List Char × List Char))
  | 0, _ => []
  | fuel + 1, l =>
    match delimTs '<' '>' l with
    | some (g, r1) =>
      match scanUntil (fun s => (delimTs '<' '>' s).isSome) r1 with
      | (content, r2) =>
        match delimTs '<' '>' r2 with
        | some (g2, []) => [(g, content, some g2)]
        | some (_, _ :: _) => (g, content, none) :: enhancedFinditerF fuel r2
        | none => (g, content, none) :: enhancedFinditerF fuel r2
    | none =>
      match l with
      | [] => []
      | _ :: rest => enhancedFinditerF fuel rest

/-- Enhanced-dialect `finditer`, at adequate fuel. -/
def enhancedFinditer (l : List Char) :
    List ((List Char × List Char × List Char) × List Char ×
      Option (List Char × List Char × List Char)) :=
  enhancedFinditerF (l.length + 1) l

/-- `_WORD_SPLIT_PATTERN.findall` (lrc.py line 14): segments of
`(text-before-stamp, optional [m:s.ms] stamp)`; `re.findall` always appends a
final empty match (after the last consumed character, including on the empty
string). -/
def wordFindallF : Nat → List Char →
    List (List Char × Option (List Char × List Char × List Char))
  | 0, _ => []
  | fuel + 1, l =>
    match l with
    | [] => [([], none)]
    | c :: cs =>
      match scanUntil (fun s => (delimTs '[' ']' s).isSome) (c :: cs) with
      | (content, r) =>
        match delimTs '[' ']' r with
        | some (g, rest) => (content, some g) :: wordFindallF fuel rest
        | none => [(content, none), ([], none)]

/-- Bracketed-dialect `findall`, at adequate fuel. -/
def wordFindall (l : List Char) :
    List (List Char × Option (List Char × List Char × List Char)) :=
  wordFindallF (l.length + 1) l

/-- `_TAG_SPLIT_PATTERN` (lrc.py line 11): `^\[(\w+):([^\]]*)\]$`. -/
def matchTag (l : List Char) : Option (List Char × List Char) :=
  match l with
  | '[' :: r0 =>
    match r0.span isWordChar with
    | (k, r1) =>
      if k.isEmpty then none
      else
        match r1 with
        | ':' :: r2 =>
          match r2.span (fun c => !(c == ']')) with
          | (v, r3) => if r3 = [']'] then some (k, v) else none
        | _ => none
  | _ => none

/-- `time2ms` applied to regex digit captures (always digit strings, so the
`int` calls cannot raise); the 2-character millisecond field is centiseconds
(timeutil.py lines 24-31). -/
def time2msD (m s ms : List Char) : Int :=
  let mss := if ms.length = 2 then valNat ms * 10 else valNat ms
  (((valNat m * 60 + valNat s) * 1000 + mss : Nat) : Int)

/-- `word_end or end` (lrc.py lines 46 and 58): Python truthiness keeps the
old value when `word_end` is `None` *or zero*. -/
def pyOrOpt (a b : Option Int) : Option Int :=
  match a with
  | some v => if v ≠ 0 then some v else b
  | none => b

/-- One iteration of the enhanced-dialect word loop (lrc.py lines 42-50),
over the state `(end, words)`. -/
def enhancedWordsStep (st : Option Int × List LyricsWord)
    (mt : (List Char × List Char × List Char) × List Char ×
      Option (List Char × List Char × List Char)) :
    Option Int × List LyricsWord :=
  let sg := mt.1
  let word_str := mt.2.1
  let eg := mt.2.2
  let word_start := time2msD sg.1 sg.2.1 sg.2.2
  let word_end : Option Int := eg.map (fun g => time2msD g.1 g.2.1 g.2.2)
  let e := pyOrOpt word_end st.1
  let words := st.2
  let words :=
    match words.getLast? with
    | some lw => words.dropLast ++ [⟨lw.start, some word_start, lw.text⟩]
    | none => words
  let words :=
    if !word_str.isEmpty then words ++ [⟨some word_start, word_end, String.mk word_str⟩]
    else words
  (e, words)

/-- One iteration of the bracketed-dialect word loop (lrc.py lines 54-60):
the first word inherits the line start, later words the previous word's end;
only the last findall element updates `end`. -/
def bracketWordsStep (start : Int) (total : Nat)
    (st : Option Int × List LyricsWord)
    (ip : Nat × (List Char × Option (List Char × List Char × List Char))) :
    Option Int × List LyricsWord :=
  let w_i := ip.1
  let word_str := ip.2.1
  let eg := ip.2.2
  let words := st.2
  let word_start : Option Int :=
    match words.getLast? with
    | none => some start
    | some lw => lw.«end»
  let word_end : Option Int := eg.map (fun g => time2msD g.1 g.2.1 g.2.2)
  let e := if w_i = total - 1 then pyOrOpt word_end st.1 else st.1
  let words :=
    if !word_str.isEmpty then words ++ [⟨word_start, word_end, String.mk word_str⟩]
    else words
  (e, words)

/-- One iteration of the `lrc2data` line loop (lrc.py lines 23-67) over the
state `(tags, data)`. -/
def parseLRCLine (source : Option Source)
    (st : List (String × String) × List LyricsLine) (raw : List Char) :
    List (String × String) × List LyricsLine :=
  let tags := st.1
  let data := st.2
  let line := pyStripChars raw
  if line.isEmpty || !(startsWithChars ['['] line) then (tags, data)
  else
    match delimTs '[' ']' line with
    | some ((m, s, ms), line_content) =>
      let start := time2msD m s ms
      let multi := leadingTimestamps line
      if source = some Source.NE ∧ 2 ≤ multi.1.length then
        (tags, data ++ multi.1.map (fun g =>
          let ts_start := time2msD g.1 g.2.1 g.2.2
          LyricsLine.mk (some ts_start) none [⟨some ts_start, none, String.mk multi.2⟩]))
      else
        let ew : Option Int × List LyricsWord :=
          if line_content.contains '<' && line_content.contains '>' then
            (enhancedFinditer line_content).foldl enhancedWordsStep (none, [])
          else
            let parts := wordFindall line_content
            if !parts.isEmpty then
              parts.enum.foldl (bracketWordsStep start parts.length) (none, [])
            else (none, [])
        if !ew.2.isEmpty then (tags, data ++ [⟨some start, ew.1, ew.2⟩]) else (tags, data)
    | none =>
      match matchTag line with
      | some (k, v) => (dictSet (String.mk k) (String.mk v) tags, data)
      | none => (tags, data)

/-- Stable insertion for Python `sorted(..., key=lambda x: x.start)` (all
starts are non-null when sorting happens; `getD 0` stands for the int key). -/
def insertByStart (x : LyricsLine) : List LyricsLine → List LyricsLine
  | [] => [x]
  | y :: ys =>
    if y.start.getD 0 ≤ x.start.getD 0 then y :: insertByStart x ys
    else x :: y :: ys

/-- Python `sorted(data, key=lambda x: x.start)` (stable). -/
def pySortedByStart (l : List LyricsLine) : List LyricsLine :=
  l.foldl (fun acc x => insertByStart x acc) []

/-- The backfill loop (lrc.py lines 72-76): a line with null end whose
neighbours have starts gets its end set to the next line's start. -/
def backfillEnds : List LyricsLine → List LyricsLine
  | [] => []
  | [x] => [x]
  | x :: y :: rest =>
    (if x.«end» = none ∧ x.start.isSome ∧ y.start.isSome then
      LyricsLine.mk x.start y.start x.words
    else x) :: backfillEnds (y :: rest)

/-- The raw line-loop output of `lrc2data` (before post-processing). -/
def lrcParsedLines (lrc : String) (source : Option Source) :
    List (String × String) × List LyricsLine :=
  (pySplitlines lrc.data).foldl (parseLRCLine source) ([], [])

/-- The filtered-and-sorted intermediate stage of `lrc2data` (lrc.py line
71). -/
def lrcSortedStage (lrc : String) (source : Option Source) : List LyricsLine :=
  pySortedByStart ((lrcParsedLines lrc source).2.filter (fun ln => ln.start.isSome))

/-- `lrc2data` (lrc.py lines 19-79): parse the lines, then sort by start
(nulls removed), backfill null ends from the next line's start, and drop
lines with no words. -/
def lrc2data (lrc : String) (source : Option Source) :
    List (String × String) × List LyricsLine :=
  ((lrcParsedLines lrc source).1,
    (backfillEnds (lrcSortedStage lrc source)).filter (fun ln => !ln.words.isEmpty))

/-! ### Post-processing invariants of `lrc2data` (claim C2) -/

/-- Auxiliary: the guarded append of the normal branch of the line loop only
adds a line with the parsed start and the (non-empty) word list. -/
theorem parse_append_mem (tags : List (String × String)) (data : List LyricsLine)
    (start : Int) (pr : Option Int × List LyricsWord) (ln : LyricsLine)
    (h : ln ∈ (if !pr.2.isEmpty then
        (tags, data ++ [(⟨some start, pr.1, pr.2⟩ : LyricsLine)])
      else (tags, data)).2) :
    ln ∈ data ∨ (ln.start.isSome ∧ ln.words ≠ []) := by
  by_cases hp : pr.2.isEmpty
  · rw [hp] at h
    simp only [Bool.not_true, Bool.false_eq_true, if_false] at h
    exact Or.inl h
  · rw [show pr.2.isEmpty = false from by simpa using hp] at h
    simp only [Bool.not_false, if_true, List.mem_append, List.mem_singleton] at h
    rcases h with h | h
    · exact Or.inl h
    · subst h
      exact Or.inr ⟨rfl, by simpa [List.isEmpty_iff] using hp⟩

/-- Every line the parse loop appends has a non-null start and non-empty
words (the normal branch is guarded by `if words:`, the NE branch appends
singleton-word lines). -/
theorem parseLRCLine_snd_mem (src : Option Source)
    (st : List (String × String) × List LyricsLine) (raw : List Char) :
    ∀ ln ∈ (parseLRCLine src st raw).2,
      ln ∈ st.2 ∨ (ln.start.isSome ∧ ln.words ≠ []) := by
  intro ln hln
  simp only [parseLRCLine] at hln
  split at hln
  · exact Or.inl hln
  · split at hln
    · split at hln
      · simp only [List.mem_append] at hln
        rcases hln with h | h
        · exact Or.inl h
        · simp only [List.mem_map] at h
          obtain ⟨g, _, rfl⟩ := h
          exact Or.inr ⟨rfl, by simp⟩
      · exact parse_append_mem _ _ _ _ ln hln
    · split at hln
      · exact Or.inl hln
      · exact Or.inl hln

/-- The parse loop only accumulates lines with non-null start and non-empty
words. -/
theorem parseFold_snd_mem (src : Option Source) :
    ∀ (raws : List (List Char)) (st : List (String × String) × List LyricsLine),
      (∀ ln ∈ st.2, ln.start.isSome ∧ ln.words ≠ []) →
      ∀ ln ∈ (raws.foldl (parseLRCLine src) st).2,
        ln.start.isSome ∧ ln.words ≠ [] := by
  intro raws
  induction raws with
  | nil => intro st hst ln hln; exact hst ln hln
  | cons raw rest ih =>
    intro st hst ln hln
    rw [List.foldl_cons] at hln
    refine ih (parseLRCLine src st raw) ?_ ln hln
    intro ln' hln'
    rcases parseLRCLine_snd_mem src st raw ln' hln' with h | h
    · exact hst ln' h
    · exact h

theorem lrcParsedLines_mem (lrc : String) (src : Option Source) :
    ∀ ln ∈ (lrcParsedLines lrc src).2, ln.start.isSome ∧ ln.words ≠ [] := by
  intro ln hln
  exact parseFold_snd_mem src (pySplitlines lrc.data) ([], []) (by simp) ln hln

/-- Membership in `insertByStart`. -/
theorem mem_insertByStart {a x : LyricsLine} :
    ∀ {l : List LyricsLine}, a ∈ insertByStart x l ↔ a = x ∨ a ∈ l := by
  intro l
  induction l with
  | nil => simp [insertByStart]
  | cons y ys ih =>
    simp only [insertByStart]
    split
    · rw [List.mem_cons, ih, List.mem_cons]
      tauto
    · simp only [List.mem_cons]

/-- `insertByStart` preserves sortedness by the start key. -/
theorem pairwise_insertByStart {x : LyricsLine} :
    ∀ {l : List LyricsLine},
      l.Pairwise (fun a b => a.start.getD 0 ≤ b.start.getD 0) →
      (insertByStart x l).Pairwise (fun a b => a.start.getD 0 ≤ b.start.getD 0) := by
  intro l
  induction l with
  | nil => intro _; simp [insertByStart]
  | cons y ys ih =>
    intro h
    rw [List.pairwise_cons] at h
    obtain ⟨hy, hys⟩ := h
    simp only [insertByStart]
    split
    · rename_i hle
      rw [List.pairwise_cons]
      refine ⟨?_, ih hys⟩
      intro z hz
      rcases mem_insertByStart.mp hz with rfl | hz'
      · exact hle
      · exact hy z hz'
    · rename_i hlt
      rw [List.pairwise_cons]
      refine ⟨?_, List.pairwise_cons.mpr ⟨hy, hys⟩⟩
      intro z hz
      rcases List.mem_cons.mp hz with rfl | hz'
      · omega
      · exact le_trans (by omega) (hy z hz')

/-- `pySortedByStart` output is sorted by the start key and has exactly the
input's members. -/
theorem pySortedByStart_spec (l : List LyricsLine) :
    (pySortedByStart l).Pairwise (fun a b => a.start.getD 0 ≤ b.start.getD 0) ∧
      (∀ a, a ∈ pySortedByStart l ↔ a ∈ l) := by
  have main : ∀ (l : List LyricsLine) (acc : List LyricsLine),
      acc.Pairwise (fun a b => a.start.getD 0 ≤ b.start.getD 0) →
      (l.foldl (fun acc x => insertByStart x acc) acc).Pairwise
          (fun a b => a.start.getD 0 ≤ b.start.getD 0) ∧
        (∀ a, a ∈ l.foldl (fun acc x => insertByStart x acc) acc ↔ a ∈ acc ∨ a ∈ l) := by
    intro l
    induction l with
    | nil => intro acc hacc; simpa using hacc
    | cons x xs ih =>
      intro acc hacc
      rw [List.foldl_cons]
      obtain ⟨h1, h2⟩ := ih (insertByStart x acc) (pairwise_insertByStart hacc)
      refine ⟨h1, ?_⟩
      intro a
      rw [h2 a, mem_insertByStart]
      simp only [List.mem_cons]
      tauto
  obtain ⟨h1, h2⟩ := main l [] (by simp)
  exact ⟨h1, fun a => by simpa using h2 a⟩

theorem backfillEnds_length : ∀ (l : List LyricsLine),
    (backfillEnds l).length = l.length := by
  intro l
  match l with
  | [] => rfl
  | [x] => rfl
  | x :: y :: rest =>
    simp only [backfillEnds, List.length_cons]
    rw [backfillEnds_length (y :: rest)]
    simp

theorem backfillEnds_map_start : ∀ (l : List LyricsLine),
    (backfillEnds l).map (fun ln => ln.start) = l.map (fun ln => ln.start) := by
  intro l
  match l with
  | [] => rfl
  | [x] => rfl
  | x :: y :: rest =>
    simp only [backfillEnds, List.map_cons]
    rw [backfillEnds_map_start (y :: rest)]
    congr 1
    split <;> rfl

theorem backfillEnds_forall_words : ∀ (l : List LyricsLine),
    (∀ x ∈ l, x.words ≠ []) → ∀ x ∈ backfillEnds l, x.words ≠ [] := by
  intro l
  match l with
  | [] => intro _ x hx; cases hx
  | [x] => intro h x' hx'; exact h x' hx'
  | x :: y :: rest =>
    intro h x' hx'
    simp only [backfillEnds, List.mem_cons] at hx'
    rcases hx' with h1 | h2
    · subst h1
      split
      · exact h x (List.mem_cons_self _ _)
      · exact h x (List.mem_cons_self _ _)
    · exact backfillEnds_forall_words (y :: rest)
        (fun z hz => h z (List.mem_cons_of_mem _ hz)) x' h2

theorem backfillEnds_forall_start : ∀ (l : List LyricsLine),
    (∀ x ∈ l, x.start.isSome) → ∀ x ∈ backfillEnds l, x.start.isSome := by
  intro l
  match l with
  | [] => intro _ x hx; cases hx
  | [x] => intro h x' hx'; exact h x' hx'
  | x :: y :: rest =>
    intro h x' hx'
    simp only [backfillEnds, List.mem_cons] at hx'
    rcases hx' with h1 | h2
    · subst h1
      split
      · exact h x (List.mem_cons_self _ _)
      · exact h x (List.mem_cons_self _ _)
    · exact backfillEnds_forall_start (y :: rest)
        (fun z hz => h z (List.mem_cons_of_mem _ hz)) x' h2

/-- Pointwise description of the backfill loop where a next line exists. -/
theorem backfillEnds_get? : ∀ (l : List LyricsLine) (i : Nat) (x y : LyricsLine),
    l.get? i = some x → l.get? (i + 1) = some y →
    (backfillEnds l).get? i = some
      (if x.«end» = none ∧ x.start.isSome ∧ y.start.isSome then
        LyricsLine.mk x.start y.start x.words
      else x) := by
  intro l
  match l with
  | [] => intro i x y hx hy; simp at hx
  | [z] =>
    intro i x y hx hy
    match i with
    | 0 => simp at hy
    | _ + 1 => simp at hx
  | z :: w :: rest =>
    intro i x y hx hy
    match i with
    | 0 =>
      simp only [List.get?] at hx hy
      cases hx
      cases hy
      rfl
    | i + 1 =>
      simp only [List.get?] at hx hy
      exact backfillEnds_get? (w :: rest) i x y hx hy

/-- The last line is left untouched by the backfill loop. -/
theorem backfillEnds_get?_last : ∀ (l : List LyricsLine) (i : Nat) (x : LyricsLine),
    l.get? i = some x → l.get? (i + 1) = none →
    (backfillEnds l).get? i = some x := by
  intro l
  match l with
  | [] => intro i x hx _; simp at hx
  | [z] =>
    intro i x hx hy
    match i with
    | 0 => cases hx; rfl
    | _ + 1 => simp at hx
  | z :: w :: rest =>
    intro i x hx hy
    match i with
    | 0 => simp at hy
    | i + 1 =>
      simp only [List.get?] at hx hy
      exact backfillEnds_get?_last (w :: rest) i x hx hy

/-- C2: the `LyricsData` returned by `lrc2data` has (i) only lines with a
non-null start and a non-empty word list; (ii) starts ascending (for `i < j`,
`line[i].start ≤ line[j].start`); (iii) a line of the sorted stage whose
parsed end was null gets its end backfilled to the next line's start; and
(iv) consequently every returned line except the last has a non-null end. -/
theorem lrc2data_postconditions (lrc : String) (source : Option Source) :
    (∀ ln ∈ (lrc2data lrc source).2, ln.start.isSome ∧ ln.words ≠ []) ∧
    (∀ i j x y, i < j → (lrc2data lrc source).2.get? i = some x →
        (lrc2data lrc source).2.get? j = some y →
        x.start.getD 0 ≤ y.start.getD 0) ∧
    (∀ i x y, (lrcSortedStage lrc source).get? i = some x →
        (lrcSortedStage lrc source).get? (i + 1) = some y → x.«end» = none →
        (lrc2data lrc source).2.get? i = some (LyricsLine.mk x.start y.start x.words)) ∧
    (∀ i x, (lrc2data lrc source).2.get? i = some x →
        i + 1 < (lrc2data lrc source).2.length → x.«end».isSome) := by
  have hmem : ∀ ln ∈ lrcSortedStage lrc source, ln.start.isSome ∧ ln.words ≠ [] := by
    intro ln hln
    unfold lrcSortedStage at hln
    rw [(pySortedByStart_spec _).2 ln] at hln
    rw [List.mem_filter] at hln
    exact lrcParsedLines_mem lrc source ln hln.1
  have hfid : (lrc2data lrc source).2 = backfillEnds (lrcSortedStage lrc source) := by
    simp only [lrc2data]
    refine List.filter_eq_self.mpr ?_
    intro a ha
    have := backfillEnds_forall_words (lrcSortedStage lrc source)
      (fun x hx => (hmem x hx).2) a ha
    simpa [List.isEmpty_iff] using this
  have hpw : (backfillEnds (lrcSortedStage lrc source)).Pairwise
      (fun a b => a.start.getD 0 ≤ b.start.getD 0) := by
    have h1 := (pySortedByStart_spec
      ((lrcParsedLines lrc source).2.filter (fun ln => ln.start.isSome))).1
    have h2 : ((lrcSortedStage lrc source).map (fun ln => ln.start)).Pairwise
        (fun a b => a.getD 0 ≤ b.getD 0) := by
      rw [List.pairwise_map]
      exact h1
    rw [← backfillEnds_map_start] at h2
    rw [List.pairwise_map] at h2
    exact h2
  refine ⟨?_, ?_, ?_, ?_⟩
  · intro ln hln
    rw [hfid] at hln
    exact ⟨backfillEnds_forall_start _ (fun x hx => (hmem x hx).1) ln hln,
      backfillEnds_forall_words _ (fun x hx => (hmem x hx).2) ln hln⟩
  · intro i j x y hij hx hy
    rw [hfid] at hx hy
    obtain ⟨hxl, hxe⟩ := List.get?_eq_some.mp hx
    obtain ⟨hyl, hye⟩ := List.get?_eq_some.mp hy
    have := List.pairwise_iff_get.mp hpw ⟨i, hxl⟩ ⟨j, hyl⟩ hij
    rw [hxe, hye] at this
    exact this
  · intro i x y hx hy hend
    rw [hfid]
    have hx' := (hmem x (List.get?_mem hx)).1
    have hy' := (hmem y (List.get?_mem hy)).1
    have := backfillEnds_get? (lrcSortedStage lrc source) i x y hx hy
    rw [if_pos ⟨hend, hx', hy'⟩] at this
    exact this
  · intro i x hx hlen
    rw [hfid] at hx hlen
    rw [backfillEnds_length] at hlen
    have hx0 : (lrcSortedStage lrc source).get? i
        = some ((lrcSortedStage lrc source).get ⟨i, by omega⟩) :=
      List.get?_eq_get (by omega)
    have hy0 : (lrcSortedStage lrc source).get? (i + 1)
        = some ((lrcSortedStage lrc source).get ⟨i + 1, hlen⟩) :=
      List.get?_eq_get hlen
    have hb := backfillEnds_get? (lrcSortedStage lrc source) i _ _ hx0 hy0
    rw [hx] at hb
    have hxval := Option.some.inj hb
    have hys : ((lrcSortedStage lrc source).get ⟨i + 1, hlen⟩).start.isSome :=
      (hmem _ (List.get?_mem hy0)).1
    by_cases hcond : ((lrcSortedStage lrc source).get ⟨i, by omega⟩).«end» = none ∧
        ((lrcSortedStage lrc source).get ⟨i, by omega⟩).start.isSome ∧
        ((lrcSortedStage lrc source).get ⟨i + 1, hlen⟩).start.isSome
    · rw [if_pos hcond] at hxval
      rw [hxval]
      exact hys
    · rw [if_neg hcond] at hxval
      rw [hxval]
      have hxs : ((lrcSortedStage lrc source).get ⟨i, by omega⟩).start.isSome :=
        (hmem _ (List.get?_mem hx0)).1
      rcases he : ((lrcSortedStage lrc source).get ⟨i, by omega⟩).«end» with _ | v
      · exact absurd ⟨he, hxs, hys⟩ hcond
      · rfl

/-- Witness for `lrc2data_postconditions` on a concrete two-line LRC text. -/
theorem lrc2data_postconditions_witness :
    (⟨some 1000, some 2000, [⟨some 1000, none, "Hello"⟩]⟩ : LyricsLine) ∈
        (lrc2data "[00:01.000]Hello\n[00:02.000]World" none).2 ∧
      ((⟨some 1000, some 2000, [⟨some 1000, none, "Hello"⟩]⟩ : LyricsLine).start.isSome ∧
        (⟨some 1000, some 2000, [⟨some 1000, none, "Hello"⟩]⟩ : LyricsLine).words ≠ []) :=
  ⟨by decide,
   (lrc2data_postconditions "[00:01.000]Hello\n[00:02.000]World" none).1 _ (by decide)⟩

/-! ## QRC parser (parsers/qrc.py) and plaintext (parsers/utils.py) -/

/-- `plaintext2data` (parsers/utils.py): each line becomes one untimed
single-word line. -/
def plaintext2data (s : String) : List LyricsLine :=
  (pySplitlines s.data).map (fun l => ⟨none, none, [⟨none, none, String.mk l⟩]⟩)

/-- The raising behaviour of the Python code: `LyricsProcessingError` from
qrc2data, `KeyError` from `Source[...]` / `req[...]`. -/
inductive PyExc
  | lyricsProcessing
  | keyError
deriving DecidableEq, Repr

/-- The literal header of `_QRC_PATTERN` (qrc.py line 16). -/
def qrcHeader : List Char := "<Lyric_1 LyricType=\"1\" LyricContent=\"".data

/-- Find the first `"/>` close (the lazy `.*?` of `_QRC_PATTERN`, DOTALL):
the content before it and the rest after. -/
def qrcFindClose : List Char → Option (List Char × List Char)
  | [] => none
  | '"' :: '/' :: '>' :: rest => some ([], rest)
  | c :: rest =>
    match qrcFindClose rest with
    | some (a, b) => some (c :: a, b)
    | none => none

/-- `_QRC_PATTERN.search` (qrc.py line 16): leftmost position where the
envelope header matches and a `"/>` close follows; returns the (possibly
empty) `LyricContent` capture. -/
def qrcSearchContent : List Char → Option (List Char)
  | [] => none
  | c :: rest =>
    if startsWithChars qrcHeader (c :: rest) then
      match qrcFindClose ((c :: rest).drop qrcHeader.length) with
      | some (content, _) => some content
      | none => qrcSearchContent rest
    else qrcSearchContent rest

/-- `_WORD_TIMESTAMP_PATTERN` (qrc.py line 20): `^\(\d+,\d+\)$`. -/
def isWordTimestamp (l : List Char) : Bool :=
  match pairTok '(' ')' l with
  | some (_, []) => true
  | _ => false

/-- Skip the optional leading `[\d+,\d+]` of a QRC word match. -/
def skipOptBracket (l : List Char) : List Char :=
  match pairTok '[' ']' l with
  | some (_, r) => r
  | none => l

/-- `_WORD_SPLIT_PATTERN.finditer` of qrc.py line 19 (fuel-structural like
the LRC scanners): each match is `(content, start digits, duration digits)`;
a match requires a following `(start,duration)` pair. -/
def qrcWordFinditerF : Nat → List Char → List (List Char × List Char × List Char)
  | 0, _ => []
  | fuel + 1, l =>
    match l with
    | [] => []
    | _ :: _ =>
      match scanUntil (fun s => (pairTok '(' ')' s).isSome) (skipOptBracket l) with
      | (content, r2) =>
        match pairTok '(' ')' r2 with
        | some ((s, d), rest) => (content, s, d) :: qrcWordFinditerF fuel rest
        | none => []

/-- QRC word `finditer`, at adequate fuel. -/
def qrcWordFinditer (l : List Char) : List (List Char × List Char × List Char) :=
  qrcWordFinditerF (l.length + 1) l

/-- One line of the QRC body loop (qrc.py lines 31-55), over `(tags, lines)`:
word offsets are used as absolute start/end (`start`, `start+duration`),
words whose content is exactly `"\r"` are dropped, a timestamp-only line
yields an empty-word line, and a line with no word matches gets one word
spanning the whole line. -/
def parseQRCLine (st : List (String × String) × List LyricsLine)
    (raw : List Char) : List (String × String) × List LyricsLine :=
  let tags := st.1
  let lrc_list := st.2
  let line := pyStripChars raw
  match pairTok '[' ']' line with
  | some ((ls, ld), line_content) =>
    let line_start : Int := (valNat ls : Int)
    let line_end : Int := line_start + (valNat ld : Int)
    if startsWithChars ['('] line_content ∧ line_content.getLast? = some ')' ∧
        isWordTimestamp line_content then
      (tags, lrc_list ++ [⟨some line_start, some line_end, []⟩])
    else
      let words := (qrcWordFinditer line_content).filterMap (fun mt =>
        if mt.1 = ['\r'] then none
        else some (⟨some ((valNat mt.2.1 : Int)),
          some ((valNat mt.2.1 : Int) + (valNat mt.2.2 : Int)),
          String.mk mt.1⟩ : LyricsWord))
      let words :=
        if words.isEmpty then [⟨some line_start, some line_end, String.mk line_content⟩]
        else words
      (tags, lrc_list ++ [⟨some line_start, some line_end, words⟩])
  | none =>
    match matchTag line with
    | some (k, v) => (dictSet (String.mk k) (String.mk v) tags, lrc_list)
    | none => (tags, lrc_list)

/-- `qrc2data` (qrc.py lines 23-56): raise `LyricsProcessingError` when the
envelope or its content is missing, else parse the body lines. -/
def qrc2data (s_qrc : String) :
    Except PyExc (List (String × String) × List LyricsLine) :=
  match qrcSearchContent s_qrc.data with
  | none => .error .lyricsProcessing
  | some content =>
    if content.isEmpty then .error .lyricsProcessing
    else .ok ((pySplitlines content).foldl parseQRCLine ([], []))

/-- `qrc_str_parse` (qrc.py lines 59-67): envelope → `qrc2data`; else try LRC
when both brackets occur (the `try/except` around `lrc2data` is vacuous since
the embedded LRC parser is total); else plaintext. -/
def qrc_str_parse (lyric : String) :
    Except PyExc (List (String × String) × List LyricsLine) :=
  if (qrcSearchContent lyric.data).isSome then qrc2data lyric
  else if lyric.data.contains '[' && lyric.data.contains ']' then
    .ok (lrc2data lyric none)
  else .ok ([], plaintext2data lyric)

/-- C9: an input with no QRC envelope match parses without raising (a failing
LRC parse is swallowed, plaintext is the fallback); `qrc_str_parse` can raise
only `LyricsProcessingError`, and only when the envelope pattern is present
with empty content. -/
theorem qrc_str_parse_error_contract (lyric : String) :
    (qrcSearchContent lyric.data = none → ∃ r, qrc_str_parse lyric = .ok r) ∧
    (∀ e, qrc_str_parse lyric = .error e →
      qrcSearchContent lyric.data = some [] ∧ e = PyExc.lyricsProcessing) := by
  constructor
  · intro h
    unfold qrc_str_parse
    rw [h]
    simp only [Option.isSome_none, Bool.false_eq_true, if_false]
    split
    · exact ⟨_, rfl⟩
    · exact ⟨_, rfl⟩
  · intro e he
    unfold qrc_str_parse at he
    cases hs : qrcSearchContent lyric.data with
    | none =>
      rw [hs] at he
      simp only [Option.isSome_none, Bool.false_eq_true, if_false] at he
      split at he <;> cases he
    | some content =>
      rw [hs] at he
      simp only [Option.isSome_some, if_true] at he
      have hq : qrc2data lyric =
          (if content.isEmpty then Except.error PyExc.lyricsProcessing
           else Except.ok ((pySplitlines content).foldl parseQRCLine ([], []))) := by
        unfold qrc2data
        rw [hs]
      rw [hq] at he
      by_cases hc : content.isEmpty
      · have hnil : content = [] := by simpa [List.isEmpty_iff] using hc
        subst hnil
        simp only [List.isEmpty_nil, if_true, Except.error.injEq] at he
        exact ⟨rfl, he.symm⟩
      · rw [show content.isEmpty = false from by simpa using hc] at he
        simp at he

/-- Witness for `qrc_str_parse_error_contract` on a plain text input. -/
theorem qrc_str_parse_error_contract_witness :
    qrcSearchContent ("hello world").data = none ∧
      ∃ r, qrc_str_parse "hello world" = .ok r :=
  ⟨by decide, (qrc_str_parse_error_contract "hello world").1 (by decide)⟩

/-! ## HTTP server (server.py)

Handlers are modelled by their HTTP status codes; JSON bodies and the actual
network calls (provider search, `fetch_lrc`, `get_lyrics`) are abstracted by
outcome parameters, quantified over in the theorems. -/

/-- `Source[name]` — Python `Enum` member lookup by name (KeyError → `none`). -/
def Source.ofName : String → Option Source
  | "LRCLIB" => some Source.LRCLIB
  | "QM" => some Source.QM
  | "KG" => some Source.KG
  | "NE" => some Source.NE
  | _ => none

/-- The JSON body of a POST request, modelled by the fields the handlers
read; a missing key is `none`. -/
structure Req where
  title : Option String := none
  artist : Option String := none
  sources : Option (List String) := none
  mode : Option String := none
  translation : Option String := none
  offset_ms : Option Int := none
  ms_digits : Option Int := none
  source : Option String := none
  id : Option String := none
  album : Option String := none
  duration_ms : Option Int := none
  limit_per_source : Option Int := none

/-- `tuple(Source[s] for s in req.get("sources", ...))` (server.py lines 276
and 301): raises `KeyError` at the first unknown name. -/
def parseSources : List String → Except PyExc (List Source)
  | [] => .ok []
  | s :: rest =>
    match Source.ofName s with
    | some src => (parseSources rest).map (fun l => src :: l)
    | none => .error .keyError

/-- `_handle_search` (server.py lines 148-193): 400 on blank title, invalid
source names are silently ignored, 400 when none remain, otherwise the
parallel fan-out runs (each source's search is wrapped, its error collected
into the body) and the handler answers 200.  `searcher` abstracts the
per-source `_search_source` call. -/
def handle_search (searcher : Source → List ℚ × Option String) (req : Req) : Nat :=
  let title := pyStrip (req.title.getD "")
  if title = "" then 400
  else
    let source_names := req.sources.getD ["LRCLIB", "QM", "KG", "NE"]
    let sources := source_names.filterMap Source.ofName
    if sources.isEmpty then 400
    else
      let _results := sources.map searcher
      200

/-- `_handle_fetch` (server.py lines 274-297): source parsing happens first
(KeyError on unknown names), then `req["title"]` (KeyError when absent), then
the coordinator call, abstracted by `fetchOutcome`. -/
def handle_fetch (fetchOutcome : Except PyExc String) (req : Req) :
    Except PyExc Nat := do
  let _sources ← parseSources (req.sources.getD ["LRCLIB", "QM", "KG", "NE"])
  let _title ← match req.title with
    | some t => Except.ok t
    | none => Except.error PyExc.keyError
  let _lrc ← fetchOutcome
  return 200

/-- `_handle_fetch_separate` (server.py lines 299-348), analogous. -/
def handle_fetch_separate (bundleOutcome : Except PyExc LyricsBundle)
    (req : Req) : Except PyExc Nat := do
  let _sources ← parseSources (req.sources.getD ["LRCLIB", "QM", "KG", "NE"])
  let _title ← match req.title with
    | some t => Except.ok t
    | none => Except.error PyExc.keyError
  let _bundle ← bundleOutcome
  return 200

/-- `_handle_fetch_by_id` (server.py lines 195-272): 400 for missing
source/id, explicit 400 for an unknown source name, 400 when `get_lyrics`
fails, 404 for an empty original track, else 200 (merged or separate). -/
def handle_fetch_by_id (getLyricsOutcome : Except PyExc LyricsBundle)
    (req : Req) (separate : Bool) : Except PyExc Nat :=
  if !(optStrTruthy req.source) || !(optStrTruthy req.id) then .ok 400
  else
    match Source.ofName (req.source.getD "") with
    | none => .ok 400
    | some _ =>
      match getLyricsOutcome with
      | .error _ => .ok 400
      | .ok bundle =>
        if !(optListTruthy bundle.orig) then .ok 404
        else .ok 200

/-- `Handler.do_POST` (server.py lines 117-146): 404 for unknown paths, 400
for `enhanced` mode on every endpoint, dispatch, and the blanket
`except Exception → 400`. -/
def do_POST (searcher : Source → List ℚ × Option String)
    (fetchOutcome : Except PyExc String)
    (bundleOutcome getLyricsOutcome : Except PyExc LyricsBundle)
    (path : String) (req : Req) : Nat :=
  if !(["/fetch", "/fetch_separate", "/search", "/fetch_by_id",
      "/fetch_by_id_separate"].contains path) then 404
  else if req.mode.getD "verbatim" = "enhanced" then 400
  else
    let r : Except PyExc Nat :=
      if path = "/search" then .ok (handle_search searcher req)
      else if path = "/fetch_by_id" then handle_fetch_by_id getLyricsOutcome req false
      else if path = "/fetch_by_id_separate" then handle_fetch_by_id getLyricsOutcome req true
      else if path = "/fetch" then handle_fetch fetchOutcome req
      else handle_fetch_separate bundleOutcome req
    match r with
    | .ok st => st
    | .error _ => 400

/-- C8 counterexample: a POST `/search` whose body names the unknown source
`"FOO"` (alongside a valid one) is answered 200, not 400 — unknown names are
ignored on `/search`. -/
theorem server_unknown_source_counterexample :
    do_POST (fun _ => ([], none)) (.ok "") (.error .keyError) (.error .keyError)
        "/search" { title := some "a", sources := some ["QM", "FOO"] } = 200 ∧
      "FOO" ∈ ["QM", "FOO"] ∧ Source.ofName "FOO" = none := by
  refine ⟨by decide, by decide, rfl⟩

theorem parseSources_err : ∀ (l : List String),
    (∃ s ∈ l, Source.ofName s = none) → parseSources l = .error PyExc.keyError := by
  intro l
  induction l with
  | nil =>
    intro h
    obtain ⟨s, hs, _⟩ := h
    cases hs
  | cons hd rest ih =>
    intro h
    obtain ⟨s, hs, hnone⟩ := h
    simp only [parseSources]
    cases hh : Source.ofName hd with
    | none => rfl
    | some src =>
      rcases List.mem_cons.mp hs with rfl | hmem
      · rw [hh] at hnone
        cases hnone
      · rw [ih ⟨s, hmem, hnone⟩]
        rfl

/-- C8 amended: a body naming an unknown source causes 400 on `/fetch`,
`/fetch_separate` (any unknown name in `sources`) and on `/fetch_by_id`,
`/fetch_by_id_separate` (unknown `source` field); on `/search` unknown names
are ignored, with 400 only when no valid source name remains. -/
theorem server_unknown_source_amended
    (searcher : Source → List ℚ × Option String)
    (fetchOutcome : Except PyExc String)
    (bundleOutcome getLyricsOutcome : Except PyExc LyricsBundle) (req : Req) :
    (∀ l, req.sources = some l → (∃ s ∈ l, Source.ofName s = none) →
      do_POST searcher fetchOutcome bundleOutcome getLyricsOutcome "/fetch" req = 400 ∧
      do_POST searcher fetchOutcome bundleOutcome getLyricsOutcome "/fetch_separate" req = 400) ∧
    (∀ s, req.source = some s → Source.ofName s = none →
      do_POST searcher fetchOutcome bundleOutcome getLyricsOutcome "/fetch_by_id" req = 400 ∧
      do_POST searcher fetchOutcome bundleOutcome getLyricsOutcome "/fetch_by_id_separate" req = 400) ∧
    (∀ l, req.sources = some l → (∀ s ∈ l, Source.ofName s = none) →
      do_POST searcher fetchOutcome bundleOutcome getLyricsOutcome "/search" req = 400) := by
  have hps : ∀ l, req.sources = some l → (∃ s ∈ l, Source.ofName s = none) →
      parseSources (req.sources.getD ["LRCLIB", "QM", "KG", "NE"]) = .error PyExc.keyError := by
    intro l hl hex
    rw [hl]
    exact parseSources_err l hex
  refine ⟨?_, ?_, ?_⟩
  · intro l hl hex
    have hf : handle_fetch fetchOutcome req = .error PyExc.keyError := by
      unfold handle_fetch
      rw [hps l hl hex]
      rfl
    have hfs : handle_fetch_separate bundleOutcome req = .error PyExc.keyError := by
      unfold handle_fetch_separate
      rw [hps l hl hex]
      rfl
    constructor
    · unfold do_POST
      rw [show (!(["/fetch", "/fetch_separate", "/search", "/fetch_by_id",
        "/fetch_by_id_separate"].contains "/fetch")) = false from by decide]
      simp only [Bool.false_eq_true, if_false]
      by_cases hm : req.mode.getD "verbatim" = "enhanced"
      · rw [if_pos hm]
      · rw [if_neg hm]
        show (match handle_fetch fetchOutcome req with
          | Except.ok st => st
          | Except.error _ => 400) = 400
        rw [hf]
    · unfold do_POST
      rw [show (!(["/fetch", "/fetch_separate", "/search", "/fetch_by_id",
        "/fetch_by_id_separate"].contains "/fetch_separate")) = false from by decide]
      simp only [Bool.false_eq_true, if_false]
      by_cases hm : req.mode.getD "verbatim" = "enhanced"
      · rw [if_pos hm]
      · rw [if_neg hm]
        show (match handle_fetch_separate bundleOutcome req with
          | Except.ok st => st
          | Except.error _ => 400) = 400
        rw [hfs]
  · intro s hs hnone
    have hby : ∀ sep, handle_fetch_by_id getLyricsOutcome req sep = .ok 400 := by
      intro sep
      unfold handle_fetch_by_id
      by_cases h1 : (!(optStrTruthy req.source) || !(optStrTruthy req.id)) = true
      · rw [if_pos h1]
      · rw [if_neg h1]
        rw [hs]
        simp only [Option.getD_some]
        rw [hnone]
    constructor
    · unfold do_POST
      rw [show (!(["/fetch", "/fetch_separate", "/search", "/fetch_by_id",
        "/fetch_by_id_separate"].contains "/fetch_by_id")) = false from by decide]
      simp only [Bool.false_eq_true, if_false]
      by_cases hm : req.mode.getD "verbatim" = "enhanced"
      · rw [if_pos hm]
      · rw [if_neg hm]
        show (match handle_fetch_by_id getLyricsOutcome req false with
          | Except.ok st => st
          | Except.error _ => 400) = 400
        rw [hby false]
    · unfold do_POST
      rw [show (!(["/fetch", "/fetch_separate", "/search", "/fetch_by_id",
        "/fetch_by_id_separate"].contains "/fetch_by_id_separate")) = false from by decide]
      simp only [Bool.false_eq_true, if_false]
      by_cases hm : req.mode.getD "verbatim" = "enhanced"
      · rw [if_pos hm]
      · rw [if_neg hm]
        show (match handle_fetch_by_id getLyricsOutcome req true with
          | Except.ok st => st
          | Except.error _ => 400) = 400
        rw [hby true]
  · intro l hl hall
    have hsv : handle_search searcher req = 400 := by
      unfold handle_search
      by_cases ht : pyStrip (req.title.getD "") = ""
      · rw [if_pos ht]
      · rw [if_neg ht]
        rw [hl]
        simp only [Option.getD_some]
        have hnil : (l.filterMap Source.ofName).isEmpty = true := by
          rw [List.filterMap_eq_nil_iff.mpr hall]
          rfl
        rw [if_pos hnil]
    unfold do_POST
    rw [show (!(["/fetch", "/fetch_separate", "/search", "/fetch_by_id",
      "/fetch_by_id_separate"].contains "/search")) = false from by decide]
    simp only [Bool.false_eq_true, if_false]
    by_cases hm : req.mode.getD "verbatim" = "enhanced"
    · rw [if_pos hm]
    · rw [if_neg hm]
      show (match (Except.ok (handle_search searcher req) : Except PyExc Nat) with
        | Except.ok st => st
        | Except.error _ => 400) = 400
      rw [hsv]

/-- Witness for `server_unknown_source_amended` on a concrete `/fetch`
request naming the unknown source `"FOO"`. -/
theorem server_unknown_source_amended_witness :
    (({ sources := some ["FOO"], title := some "t" } : Req).sources = some ["FOO"] ∧
      ∃ s ∈ ["FOO"], Source.ofName s = none) ∧
      do_POST (fun _ => ([], none)) (.ok "") (.error .keyError) (.error .keyError)
        "/fetch" { sources := some ["FOO"], title := some "t" } = 400 :=
  ⟨⟨rfl, ⟨"FOO", by decide, rfl⟩⟩,
   ((server_unknown_source_amended (fun _ => ([], none)) (.ok "") (.error .keyError)
      (.error .keyError) { sources := some ["FOO"], title := some "t" }).1
    ["FOO"] rfl ⟨"FOO", by decide, rfl⟩).1⟩
